import Mathlib

/-!
Verification of the multi-scale sliding-window QR scanner
(`src/utils/qrScanner.ts`, function `scanWithSlidingWindow`).

The scanner is shallowly embedded as a function parameterised by an
abstract decode primitive.  The decode primitive (jsQR together with the
canvas sub-buffer extraction feeding it) is modelled as an oracle
`Probe → DecodeOutcome` indexed by the probe site: the native full-frame
attempt, a whole-resampled-frame attempt at some scale, or a square window
at a given scale, window size and position.  `DecodeOutcome.error` models
an exception thrown inside the per-probe `try` block (either by
`getImageData` or by the decoder); an exception at the native attempt is
not caught in the source and is modelled as `ScanFinal.thrown`.

JavaScript numbers are modelled by exact rationals (`ℚ`) for scales and
overlap, and by integers for pixel coordinates; `Math.floor` is `Int.floor`.
The `for` loops of the source are modelled with an explicit fuel argument,
`none` meaning that the loop in the source does not terminate within the
given fuel; a result that is `none` for every fuel corresponds to a
non-terminating loop.  Canvas allocation and `getContext` are assumed to
succeed; `canvasAvail` models whether `debugCanvasRef.current` is non-null.
The trace fields of `ScanOutcome` record, in order, every decode
invocation (`probes`), every scale whose resampled buffer was actually
produced (`resamples`), and whether `onDebugImage` was called with a
non-null diagnostic image (`debugEmitted`).
-/

namespace QrScanner

/-- A decode invocation site: the native full-resolution attempt, a
whole-resampled-frame attempt at a given scale, or a square sliding
window at a given scale, window size and (scaled-space) position. -/
inductive Probe where
  | native : Probe
  | wholeFrame (scale : ℚ) : Probe
  | window (scale : ℚ) (windowSize : ℕ) (x y : ℤ) : Probe
deriving DecidableEq

/-- Outcome of one invocation of the decode primitive on one probe:
a decoded payload, the absence signal (jsQR returning null), or an
exception thrown inside the probe (getImageData or the decoder). -/
inductive DecodeOutcome where
  | found (payload : String) : DecodeOutcome
  | notFound : DecodeOutcome
  | error : DecodeOutcome
deriving DecidableEq

/-- The `ScannerSettings` interface of `src/types/index.ts`. -/
structure ScannerSettings where
  useAdvancedScanning : Bool
  debugMode : Bool
  minScale : ℚ
  maxScale : ℚ
  scaleStep : ℚ
  windowOverlap : ℚ
  windowSizes : List ℕ

/-- Observable outcome of one terminating scan: the decoded payload (or
`none` for not-found), the ordered trace of decode invocations, the
ordered trace of scales actually resampled, and whether a non-null
diagnostic image was handed to `onDebugImage`. -/
structure ScanOutcome where
  result : Option String
  probes : List Probe
  resamples : List ℚ
  debugEmitted : Bool
deriving DecidableEq

/-- Final state of a scan invocation: either an uncaught exception
propagated out of the native attempt, or a normal return. -/
inductive ScanFinal where
  | thrown : ScanFinal
  | done (o : ScanOutcome) : ScanFinal
deriving DecidableEq

/-- Whether a probe is a sliding-window probe. -/
def Probe.isWindow : Probe → Bool
  | .window _ _ _ _ => true
  | _ => false

/-- The inner `for (let x = 0; x <= scaledWidth - windowSize; x += stepSize)`
loop (qrScanner.ts lines 95-140).  Returns the decode invocations made, the
payload of the first successful window (if any), and whether the success
path called `onDebugImage` (it does exactly when the debug context exists). -/
def xLoop (decode : Probe → DecodeOutcome) (dctx : Bool) (sc : ℚ) (wsize : ℕ)
    (scaledW : ℤ) (y : ℤ) (step : ℤ) :
    ℕ → ℤ → Option (List Probe × Option String × Bool)
  | 0, _ => none
  | fuel + 1, x =>
    if x ≤ scaledW - wsize then
      match decode (.window sc wsize x y) with
      | .found payload => some ([.window sc wsize x y], some payload, dctx)
      | _ =>
        match xLoop decode dctx sc wsize scaledW y step fuel (x + step) with
        | none => none
        | some (ps, r, b) => some (.window sc wsize x y :: ps, r, b)
    else
      some ([], none, false)

/-- The middle `for (let y = 0; y <= scaledHeight - windowSize; y += stepSize)`
loop (qrScanner.ts lines 94-141). -/
def yLoop (decode : Probe → DecodeOutcome) (dctx : Bool) (sc : ℚ) (wsize : ℕ)
    (scaledW scaledH : ℤ) (step : ℤ) :
    ℕ → ℤ → Option (List Probe × Option String × Bool)
  | 0, _ => none
  | fuel + 1, y =>
    if y ≤ scaledH - wsize then
      match xLoop decode dctx sc wsize scaledW y step (fuel + 1) 0 with
      | none => none
      | some (ps, some payload, b) => some (ps, some payload, b)
      | some (ps, none, _) =>
        match yLoop decode dctx sc wsize scaledW scaledH step fuel (y + step) with
        | none => none
        | some (qs, r, b) => some (ps ++ qs, r, b)
    else
      some ([], none, false)

/-- The `for (const windowSize of scannerSettings.windowSizes)` loop
(qrScanner.ts lines 91-142), computing
`stepSize = Math.floor(windowSize * (1 - windowOverlap))` per size. -/
def sizesLoop (decode : Probe → DecodeOutcome) (dctx : Bool) (sc : ℚ)
    (scaledW scaledH : ℤ) (overlap : ℚ) (fuel : ℕ) :
    List ℕ → Option (List Probe × Option String × Bool)
  | [] => some ([], none, false)
  | wsize :: rest =>
    match yLoop decode dctx sc wsize scaledW scaledH
        ⌊(wsize : ℚ) * (1 - overlap)⌋ fuel 0 with
    | none => none
    | some (ps, some payload, b) => some (ps, some payload, b)
    | some (ps, none, _) =>
      match sizesLoop decode dctx sc scaledW scaledH overlap fuel rest with
      | none => none
      | some (qs, r, b) => some (ps ++ qs, r, b)

/-- The outer scale loop
`for (let scale = minScale; scale <= maxScale; scale += scaleStep)`
(qrScanner.ts lines 46-143): per iteration it computes the floored scaled
dimensions, skips the scale if either is nonpositive (line 51), otherwise
resamples (recorded in the second component), attempts the whole resampled
frame (lines 76-88; a success there returns without any `onDebugImage`
call), then runs the sliding windows. -/
def scaleLoop (decode : Probe → DecodeOutcome) (dctx : Bool) (width height : ℕ)
    (maxS stepS overlap : ℚ) (sizes : List ℕ) :
    ℕ → ℚ → Option (List Probe × List ℚ × Option String × Bool)
  | 0, _ => none
  | fuel + 1, sc =>
    if sc ≤ maxS then
      if ⌊(width : ℚ) * sc⌋ ≤ 0 ∨ ⌊(height : ℚ) * sc⌋ ≤ 0 then
        scaleLoop decode dctx width height maxS stepS overlap sizes fuel (sc + stepS)
      else
        match decode (.wholeFrame sc) with
        | .found payload => some ([.wholeFrame sc], [sc], some payload, false)
        | _ =>
          match sizesLoop decode dctx sc ⌊(width : ℚ) * sc⌋ ⌊(height : ℚ) * sc⌋
              overlap (fuel + 1) sizes with
          | none => none
          | some (ps, some payload, b) =>
            some (.wholeFrame sc :: ps, [sc], some payload, b)
          | some (ps, none, _) =>
            match scaleLoop decode dctx width height maxS stepS overlap sizes
                fuel (sc + stepS) with
            | none => none
            | some (qs, rs, r, b) =>
              some (.wholeFrame sc :: (ps ++ qs), sc :: rs, r, b)
    else
      some ([], [], none, false)

/-- The whole `scanWithSlidingWindow` function (qrScanner.ts lines 4-151):
native attempt (not guarded by try/catch, so an exception there is
`thrown`), the `useAdvancedScanning` gate, debug-canvas setup, the scale
loop, and the final `onDebugImage` call on exhaustion (line 146). -/
def scanWithSlidingWindow (decode : Probe → DecodeOutcome) (width height : ℕ)
    (s : ScannerSettings) (canvasAvail : Bool) (fuel : ℕ) : Option ScanFinal :=
  match decode .native with
  | .found payload => some (.done ⟨some payload, [.native], [], false⟩)
  | .error => some .thrown
  | .notFound =>
    if !s.useAdvancedScanning then
      some (.done ⟨none, [.native], [], false⟩)
    else
      match scaleLoop decode (s.debugMode && canvasAvail) width height
          s.maxScale s.scaleStep s.windowOverlap s.windowSizes fuel s.minScale with
      | none => none
      | some (ps, rs, some payload, b) =>
        some (.done ⟨some payload, .native :: ps, rs, b⟩)
      | some (ps, rs, none, _) =>
        some (.done ⟨none, .native :: ps, rs, s.debugMode && canvasAvail⟩)

/-- The decode oracle that reports the absence signal on every probe. -/
def allFail : Probe → DecodeOutcome := fun _ => .notFound

/-- Emission flag produced when probe `p` is the successful probe: the
source calls `onDebugImage` on success only from the window path
(line 132), and only when the debug context exists. -/
def Probe.foundEmit (p : Probe) (dctx : Bool) : Bool := p.isWindow && dctx

/-- Projection of a scan run to (result, decode trace, emission flag);
`none` when the run threw or ran out of fuel. -/
def scanView : Option ScanFinal → Option (Option String × List Probe × Bool)
  | some (.done o) => some (o.result, o.probes, o.debugEmitted)
  | _ => none

/-- Projection of a scan run to (result, decode trace, resample trace);
`none` when the run threw or ran out of fuel. -/
def scanTrace : Option ScanFinal → Option (Option String × List Probe × List ℚ)
  | some (.done o) => some (o.result, o.probes, o.resamples)
  | _ => none

/-- Debug-independent view of a final state: everything except the
diagnostic-image emission flag. -/
def ScanFinal.view : ScanFinal → Option (Option String × List Probe × List ℚ)
  | .thrown => none
  | .done o => some (o.result, o.probes, o.resamples)

/-- Projection of a scan run to its found/not-found result. -/
def scanResult : Option ScanFinal → Option (Option String)
  | some (.done o) => some o.result
  | _ => none

/-- Whether a terminated scan run performed any sliding-window probe. -/
def hasWindowProbe : Option ScanFinal → Option Bool
  | some (.done o) => some (o.probes.any Probe.isWindow)
  | _ => none

/-- The sliding-window probes of an outcome, in invocation order. -/
def windowProbes (o : ScanOutcome) : List Probe := o.probes.filter Probe.isWindow

/-- Projection of a scan run to its sliding-window probes. -/
def scanWindowProbes : Option ScanFinal → Option (List Probe)
  | some (.done o) => some (windowProbes o)
  | _ => none

/-- First probe of a list on which the oracle succeeds: returns the
consumed prefix (up to and including the successful probe), the
successful probe, and its payload. -/
def firstMatch (decode : Probe → DecodeOutcome) : List Probe → Option (List Probe × Probe × String)
  | [] => none
  | p :: ps =>
    match decode p with
    | .found payload => some ([p], p, payload)
    | _ => (firstMatch decode ps).map (fun t => (p :: t.1, t.2.1, t.2.2))

/-- Number of iterations the scale loop performs starting at `sc`,
for a positive step. -/
def scaleIters (sc maxS stepS : ℚ) : ℕ :=
  if sc ≤ maxS then (⌊(maxS - sc) / stepS⌋).toNat + 1 else 0

/-- One row of sliding-window probes: positions `0, step, ..., (nx-1)*step`. -/
def rowProbes (sc : ℚ) (wsize : ℕ) (step y : ℤ) (nx : ℕ) : List Probe :=
  (List.range nx).map (fun (i : ℕ) => .window sc wsize ((i : ℤ) * step) y)

/-- The grid of sliding-window probes produced by `m` rows starting at
row `y`, each row `nx` windows wide, in row-major order. -/
def gridProbes (sc : ℚ) (wsize : ℕ) (step : ℤ) (nx : ℕ) : ℤ → ℕ → List Probe
  | _, 0 => []
  | y, m + 1 => rowProbes sc wsize step y nx ++ gridProbes sc wsize step nx (y + step) m

/-- Whether a window probe covers the pixel at `(px, py)` in its scaled
frame coordinates. -/
def coversPt : Probe → ℤ → ℤ → Prop
  | .window _ w x y, px, py => x ≤ px ∧ px < x + w ∧ y ≤ py ∧ py < y + w
  | _, _, _ => False

/-- Oracle that decodes everything (used to witness the native pass). -/
def cdAlways : Probe → DecodeOutcome := fun _ => .found "hello"

/-- Oracle that succeeds exactly on whole-resampled-frame probes. -/
def cdFrame : Probe → DecodeOutcome
  | .wholeFrame _ => .found "x"
  | _ => .notFound

/-- Oracle that succeeds on two disjoint windows of the same scale and
window size: `(x, y) = (2, 0)` with payload A and `(x, y) = (0, 2)` with
payload B; row-major order visits `(2, 0)` first. -/
def cdTwoWins : Probe → DecodeOutcome
  | .window _ _ 2 0 => .found "A"
  | .window _ _ 0 2 => .found "B"
  | _ => .notFound

/-- Oracle that throws inside the probe of the window at the origin and
reports absence everywhere else. -/
def cdErrWin : Probe → DecodeOutcome :=
  fun p => if p = .window 1 2 0 0 then .error else .notFound

/-- Pointwise patch of an oracle: probe `p₀` is forced to the absence
signal, all other probes are unchanged. -/
def patchProbe (decode : Probe → DecodeOutcome) (p₀ : Probe) : Probe → DecodeOutcome :=
  fun p => if p = p₀ then .notFound else decode p

end QrScanner

namespace QrScanner

/-- C1.  If the decode primitive succeeds on the unmodified native-resolution
buffer, the scan returns exactly that payload, its decode trace is the single
native probe (zero resampling, zero window probes), and no diagnostic image
is produced, for every configuration, canvas state and fuel (in particular
regardless of debugMode). -/
theorem native_pass_short_circuit (decode : Probe → DecodeOutcome)
    (width height : ℕ) (s : ScannerSettings) (ca : Bool) (fuel : ℕ)
    (payload : String) (hfound : decode .native = .found payload) :
    scanWithSlidingWindow decode width height s ca fuel
      = some (.done ⟨some payload, [.native], [], false⟩) := by
  unfold scanWithSlidingWindow
  rw [hfound]

/-- Witness for C1 at a concrete oracle and configuration. -/
theorem native_pass_short_circuit_witness :
    scanWithSlidingWindow cdAlways 4 4 ⟨true, true, 1, 1, 1, 0, [2]⟩ true 9
      = some (.done ⟨some "hello", [.native], [], false⟩) :=
  native_pass_short_circuit cdAlways 4 4 ⟨true, true, 1, 1, 1, 0, [2]⟩ true 9 "hello" rfl

/-- C9.  With advanced scanning disabled and a native decode that fails,
the scan returns not-found with no resampling and no window probe, for
every configuration of the scale and window fields. -/
theorem advanced_scanning_disabled_stops (decode : Probe → DecodeOutcome)
    (width height : ℕ) (s : ScannerSettings) (ca : Bool) (fuel : ℕ)
    (hgate : s.useAdvancedScanning = false)
    (hnf : decode .native = .notFound) :
    scanWithSlidingWindow decode width height s ca fuel
      = some (.done ⟨none, [.native], [], false⟩) := by
  unfold scanWithSlidingWindow
  rw [hnf, hgate]
  rfl

/-- Witness for C9 at a concrete oracle and an extreme configuration. -/
theorem advanced_scanning_disabled_stops_witness :
    scanWithSlidingWindow allFail 100 100 ⟨false, true, 1/10, 3, 1/10, 9/10, [50, 100]⟩ true 9
      = some (.done ⟨none, [.native], [], false⟩) :=
  advanced_scanning_disabled_stops allFail 100 100
    ⟨false, true, 1/10, 3, 1/10, 9/10, [50, 100]⟩ true 9 rfl rfl

/-- With a zero step and a window that fits, the inner window loop never
advances: it exhausts every fuel. -/
lemma xLoop_allFail_stuck (dctx : Bool) (sc : ℚ) (wsize : ℕ) (scaledW y : ℤ)
    (hin : (0:ℤ) ≤ scaledW - wsize) :
    ∀ fuel, xLoop allFail dctx sc wsize scaledW y 0 fuel 0 = none := by
  intro fuel
  induction fuel with
  | zero => rfl
  | succ f ih =>
    unfold xLoop
    rw [if_pos hin]
    simp only [allFail, add_zero, ih]

/-- C5 (code bug).  The source computes
`stepSize = Math.floor(windowSize * (1 - windowOverlap))` with no clamp:
at windowSize 10 and windowOverlap 19/20 the step is 0, the window loops
never advance, and the scan fails to terminate for every fuel (the claim
and the spec mandate clamping the step to at least 1 so that the scan
always terminates). -/
theorem window_step_zero_diverges :
    (∀ (fuel : ℕ) (dbg ca : Bool),
      scanWithSlidingWindow allFail 10 10 ⟨true, dbg, 1, 1, 1, 19/20, [10]⟩ ca fuel = none)
    ∧ ⌊((10:ℕ) : ℚ) * (1 - 19/20)⌋ = 0 := by
  have hstep : ⌊((10:ℕ) : ℚ) * (1 - 19/20)⌋ = 0 := by
    rw [show ((10:ℕ) : ℚ) * (1 - 19/20) = 1/2 by norm_num]
    rw [Int.floor_eq_zero_iff]
    constructor <;> norm_num
  have h10 : ⌊((10:ℕ) : ℚ) * 1⌋ = (10:ℤ) := by norm_num
  refine ⟨?_, hstep⟩
  intro fuel dbg ca
  have hscale : ∀ f : ℕ,
      scaleLoop allFail (dbg && ca) 10 10 1 1 (19/20) [10] f 1 = none := by
    intro f
    cases f with
    | zero => rfl
    | succ f =>
      unfold scaleLoop
      rw [if_pos (by norm_num : (1:ℚ) ≤ 1), h10]
      rw [if_neg (by norm_num : ¬((10:ℤ) ≤ 0 ∨ (10:ℤ) ≤ 0))]
      unfold sizesLoop
      rw [hstep]
      unfold yLoop
      rw [if_pos (by norm_num : (0:ℤ) ≤ 10 - ((10:ℕ):ℤ))]
      rw [xLoop_allFail_stuck (dbg && ca) 1 10 10 0
        (by norm_num : (0:ℤ) ≤ 10 - ((10:ℕ):ℤ)) (f + 1)]
      simp only [allFail]
  unfold scanWithSlidingWindow
  simp only [allFail, hscale]
  rfl

/-- The debug-context flag does not influence the probes made or the
result of the inner window loop, only its emission bit. -/
lemma xLoop_debug_indep (decode : Probe → DecodeOutcome) (a b : Bool) (sc : ℚ)
    (wsize : ℕ) (scaledW y step : ℤ) :
    ∀ fuel x, (xLoop decode a sc wsize scaledW y step fuel x).map (fun t => (t.1, t.2.1))
      = (xLoop decode b sc wsize scaledW y step fuel x).map (fun t => (t.1, t.2.1)) := by
  intro fuel
  induction fuel with
  | zero => intro x; rfl
  | succ f ih =>
    intro x
    unfold xLoop
    by_cases hx : x ≤ scaledW - wsize
    · rw [if_pos hx, if_pos hx]
      have hih := ih (x + step)
      cases hdec : decode (.window sc wsize x y) with
      | found payload => rfl
      | notFound =>
        rcases hA : xLoop decode a sc wsize scaledW y step f (x + step) with _ | ⟨ps, r, b1⟩ <;>
          rcases hB : xLoop decode b sc wsize scaledW y step f (x + step) with _ | ⟨qs, r2, b2⟩ <;>
          rw [hA, hB] at hih <;> simp_all
      | error =>
        rcases hA : xLoop decode a sc wsize scaledW y step f (x + step) with _ | ⟨ps, r, b1⟩ <;>
          rcases hB : xLoop decode b sc wsize scaledW y step f (x + step) with _ | ⟨qs, r2, b2⟩ <;>
          rw [hA, hB] at hih <;> simp_all
    · rw [if_neg hx, if_neg hx]

/-- The debug-context flag does not influence the probes made or the
result of the row loop. -/
lemma yLoop_debug_indep (decode : Probe → DecodeOutcome) (a b : Bool) (sc : ℚ)
    (wsize : ℕ) (scaledW scaledH step : ℤ) :
    ∀ fuel y, (yLoop decode a sc wsize scaledW scaledH step fuel y).map (fun t => (t.1, t.2.1))
      = (yLoop decode b sc wsize scaledW scaledH step fuel y).map (fun t => (t.1, t.2.1)) := by
  intro fuel
  induction fuel with
  | zero => intro y; rfl
  | succ f ih =>
    intro y
    unfold yLoop
    by_cases hy : y ≤ scaledH - wsize
    · rw [if_pos hy, if_pos hy]
      have hx := xLoop_debug_indep decode a b sc wsize scaledW y step (f + 1) 0
      have hih := ih (y + step)
      cases hA : xLoop decode a sc wsize scaledW y step (f + 1) 0 with
      | none =>
        cases hB : xLoop decode b sc wsize scaledW y step (f + 1) 0 with
        | none => rfl
        | some t2 => rw [hA, hB] at hx; simp at hx
      | some t =>
        obtain ⟨ps, r, b1⟩ := t
        cases hB : xLoop decode b sc wsize scaledW y step (f + 1) 0 with
        | none => rw [hA, hB] at hx; simp at hx
        | some t2 =>
          obtain ⟨qs, r2, b2⟩ := t2
          rw [hA, hB] at hx
          simp only [Option.map_some', Option.some.injEq, Prod.mk.injEq] at hx
          obtain ⟨hps, hr⟩ := hx
          subst hps; subst hr
          cases r with
          | some payload => rfl
          | none =>
            cases hC : yLoop decode a sc wsize scaledW scaledH step f (y + step) with
            | none =>
              cases hD : yLoop decode b sc wsize scaledW scaledH step f (y + step) with
              | none => rfl
              | some u => rw [hC, hD] at hih; simp at hih
            | some u =>
              obtain ⟨us, ur, ub⟩ := u
              cases hD : yLoop decode b sc wsize scaledW scaledH step f (y + step) with
              | none => rw [hC, hD] at hih; simp at hih
              | some v =>
                obtain ⟨vs, vr, vb⟩ := v
                rw [hC, hD] at hih
                simp only [Option.map_some', Option.some.injEq, Prod.mk.injEq] at hih
                obtain ⟨h1, h2⟩ := hih
                subst h1; subst h2
                rfl
    · rw [if_neg hy, if_neg hy]

/-- The debug-context flag does not influence the probes made or the
result of the window-sizes loop. -/
lemma sizesLoop_debug_indep (decode : Probe → DecodeOutcome) (a b : Bool) (sc : ℚ)
    (scaledW scaledH : ℤ) (overlap : ℚ) (fuel : ℕ) :
    ∀ sizes, (sizesLoop decode a sc scaledW scaledH overlap fuel sizes).map (fun t => (t.1, t.2.1))
      = (sizesLoop decode b sc scaledW scaledH overlap fuel sizes).map (fun t => (t.1, t.2.1)) := by
  intro sizes
  induction sizes with
  | nil => rfl
  | cons wsize rest ih =>
    unfold sizesLoop
    have hy := yLoop_debug_indep decode a b sc wsize scaledW scaledH
      ⌊(wsize : ℚ) * (1 - overlap)⌋ fuel 0
    cases hA : yLoop decode a sc wsize scaledW scaledH ⌊(wsize : ℚ) * (1 - overlap)⌋ fuel 0 with
    | none =>
      cases hB : yLoop decode b sc wsize scaledW scaledH ⌊(wsize : ℚ) * (1 - overlap)⌋ fuel 0 with
      | none => rfl
      | some t2 => rw [hA, hB] at hy; simp at hy
    | some t =>
      obtain ⟨ps, r, b1⟩ := t
      cases hB : yLoop decode b sc wsize scaledW scaledH ⌊(wsize : ℚ) * (1 - overlap)⌋ fuel 0 with
      | none => rw [hA, hB] at hy; simp at hy
      | some t2 =>
        obtain ⟨qs, r2, b2⟩ := t2
        rw [hA, hB] at hy
        simp only [Option.map_some', Option.some.injEq, Prod.mk.injEq] at hy
        obtain ⟨hps, hr⟩ := hy
        subst hps; subst hr
        cases r with
        | some payload => rfl
        | none =>
          cases hC : sizesLoop decode a sc scaledW scaledH overlap fuel rest with
          | none =>
            cases hD : sizesLoop decode b sc scaledW scaledH overlap fuel rest with
            | none => rfl
            | some u => rw [hC, hD] at ih; simp at ih
          | some u =>
            obtain ⟨us, ur, ub⟩ := u
            cases hD : sizesLoop decode b sc scaledW scaledH overlap fuel rest with
            | none => rw [hC, hD] at ih; simp at ih
            | some v =>
              obtain ⟨vs, vr, vb⟩ := v
              rw [hC, hD] at ih
              simp only [Option.map_some', Option.some.injEq, Prod.mk.injEq] at ih
              obtain ⟨h1, h2⟩ := ih
              subst h1; subst h2
              rfl

/-- The debug-context flag does not influence the probes made, the scales
resampled, or the result of the scale loop. -/
lemma scaleLoop_debug_indep (decode : Probe → DecodeOutcome) (a b : Bool)
    (width height : ℕ) (maxS stepS overlap : ℚ) (sizes : List ℕ) :
    ∀ fuel sc,
      (scaleLoop decode a width height maxS stepS overlap sizes fuel sc).map
        (fun t => (t.1, t.2.1, t.2.2.1))
      = (scaleLoop decode b width height maxS stepS overlap sizes fuel sc).map
        (fun t => (t.1, t.2.1, t.2.2.1)) := by
  intro fuel
  induction fuel with
  | zero => intro sc; rfl
  | succ f ih =>
    intro sc
    unfold scaleLoop
    by_cases hsc : sc ≤ maxS
    · rw [if_pos hsc, if_pos hsc]
      by_cases hdim : ⌊(width : ℚ) * sc⌋ ≤ 0 ∨ ⌊(height : ℚ) * sc⌋ ≤ 0
      · rw [if_pos hdim, if_pos hdim]
        exact ih (sc + stepS)
      · rw [if_neg hdim, if_neg hdim]
        cases hdec : decode (.wholeFrame sc) with
        | found payload => rfl
        | notFound =>
          have hs := sizesLoop_debug_indep decode a b sc ⌊(width : ℚ) * sc⌋
            ⌊(height : ℚ) * sc⌋ overlap (f + 1) sizes
          have hih := ih (sc + stepS)
          cases hA : sizesLoop decode a sc ⌊(width : ℚ) * sc⌋ ⌊(height : ℚ) * sc⌋
              overlap (f + 1) sizes with
          | none =>
            cases hB : sizesLoop decode b sc ⌊(width : ℚ) * sc⌋ ⌊(height : ℚ) * sc⌋
                overlap (f + 1) sizes with
            | none => rfl
            | some t2 => rw [hA, hB] at hs; simp at hs
          | some t =>
            obtain ⟨ps, r, b1⟩ := t
            cases hB : sizesLoop decode b sc ⌊(width : ℚ) * sc⌋ ⌊(height : ℚ) * sc⌋
                overlap (f + 1) sizes with
            | none => rw [hA, hB] at hs; simp at hs
            | some t2 =>
              obtain ⟨qs, r2, b2⟩ := t2
              rw [hA, hB] at hs
              simp only [Option.map_some', Option.some.injEq, Prod.mk.injEq] at hs
              obtain ⟨hps, hr⟩ := hs
              subst hps; subst hr
              cases r with
              | some payload => rfl
              | none =>
                cases hC : scaleLoop decode a width height maxS stepS overlap sizes
                    f (sc + stepS) with
                | none =>
                  cases hD : scaleLoop decode b width height maxS stepS overlap sizes
                      f (sc + stepS) with
                  | none => rfl
                  | some u => rw [hC, hD] at hih; simp at hih
                | some u =>
                  obtain ⟨us, urs, ur, ub⟩ := u
                  cases hD : scaleLoop decode b width height maxS stepS overlap sizes
                      f (sc + stepS) with
                  | none => rw [hC, hD] at hih; simp at hih
                  | some v =>
                    obtain ⟨vs, vrs, vr, vb⟩ := v
                    rw [hC, hD] at hih
                    simp only [Option.map_some', Option.some.injEq, Prod.mk.injEq] at hih
                    obtain ⟨h1, h2, h3⟩ := hih
                    subst h1; subst h2; subst h3
                    rfl
        | error =>
          have hs := sizesLoop_debug_indep decode a b sc ⌊(width : ℚ) * sc⌋
            ⌊(height : ℚ) * sc⌋ overlap (f + 1) sizes
          have hih := ih (sc + stepS)
          cases hA : sizesLoop decode a sc ⌊(width : ℚ) * sc⌋ ⌊(height : ℚ) * sc⌋
              overlap (f + 1) sizes with
          | none =>
            cases hB : sizesLoop decode b sc ⌊(width : ℚ) * sc⌋ ⌊(height : ℚ) * sc⌋
                overlap (f + 1) sizes with
            | none => rfl
            | some t2 => rw [hA, hB] at hs; simp at hs
          | some t =>
            obtain ⟨ps, r, b1⟩ := t
            cases hB : sizesLoop decode b sc ⌊(width : ℚ) * sc⌋ ⌊(height : ℚ) * sc⌋
                overlap (f + 1) sizes with
            | none => rw [hA, hB] at hs; simp at hs
            | some t2 =>
              obtain ⟨qs, r2, b2⟩ := t2
              rw [hA, hB] at hs
              simp only [Option.map_some', Option.some.injEq, Prod.mk.injEq] at hs
              obtain ⟨hps, hr⟩ := hs
              subst hps; subst hr
              cases r with
              | some payload => rfl
              | none =>
                cases hC : scaleLoop decode a width height maxS stepS overlap sizes
                    f (sc + stepS) with
                | none =>
                  cases hD : scaleLoop decode b width height maxS stepS overlap sizes
                      f (sc + stepS) with
                  | none => rfl
                  | some u => rw [hC, hD] at hih; simp at hih
                | some u =>
                  obtain ⟨us, urs, ur, ub⟩ := u
                  cases hD : scaleLoop decode b width height maxS stepS overlap sizes
                      f (sc + stepS) with
                  | none => rw [hC, hD] at hih; simp at hih
                  | some v =>
                    obtain ⟨vs, vrs, vr, vb⟩ := v
                    rw [hC, hD] at hih
                    simp only [Option.map_some', Option.some.injEq, Prod.mk.injEq] at hih
                    obtain ⟨h1, h2, h3⟩ := hih
                    subst h1; subst h2; subst h3
                    rfl
    · rw [if_neg hsc, if_neg hsc]

/-- C10.  Two runs of the scanner that differ only in `debugMode` have the
same debug-independent view: the same thrown/normal status, the same
found/not-found result and payload, the same decode trace and the same
resample trace; `debugMode` influences only the diagnostic-image output. -/
theorem debug_mode_noninterference (decode : Probe → DecodeOutcome)
    (width height : ℕ) (s : ScannerSettings) (ca : Bool) (fuel : ℕ) :
    (scanWithSlidingWindow decode width height {s with debugMode := true} ca fuel).map
        ScanFinal.view
      = (scanWithSlidingWindow decode width height {s with debugMode := false} ca fuel).map
        ScanFinal.view := by
  unfold scanWithSlidingWindow
  cases hdec : decode .native with
  | found payload => rfl
  | error => rfl
  | notFound =>
    cases hadv : s.useAdvancedScanning with
    | false => rfl
    | true =>
      simp only [hadv, Bool.not_true, Bool.false_eq_true, if_false]
      have hsl := scaleLoop_debug_indep decode (true && ca) (false && ca) width height
        s.maxScale s.scaleStep s.windowOverlap s.windowSizes fuel s.minScale
      cases hA : scaleLoop decode (true && ca) width height s.maxScale s.scaleStep
          s.windowOverlap s.windowSizes fuel s.minScale with
      | none =>
        cases hB : scaleLoop decode (false && ca) width height s.maxScale s.scaleStep
            s.windowOverlap s.windowSizes fuel s.minScale with
        | none => rfl
        | some t => rw [hA, hB] at hsl; simp at hsl
      | some t =>
        obtain ⟨ps, rs, r, b1⟩ := t
        cases hB : scaleLoop decode (false && ca) width height s.maxScale s.scaleStep
            s.windowOverlap s.windowSizes fuel s.minScale with
        | none => rw [hA, hB] at hsl; simp at hsl
        | some t2 =>
          obtain ⟨qs, rs2, r2, b2⟩ := t2
          rw [hA, hB] at hsl
          simp only [Option.map_some', Option.some.injEq, Prod.mk.injEq] at hsl
          obtain ⟨h1, h2, h3⟩ := hsl
          subst h1; subst h2; subst h3
          cases r with
          | some payload => rfl
          | none => rfl

/-- Two oracles that succeed on exactly the same probes with the same
payloads (they may differ between the absence signal and an exception). -/
def sameFound (d₁ d₂ : Probe → DecodeOutcome) : Prop :=
  ∀ p payload, d₁ p = .found payload ↔ d₂ p = .found payload

/-- The window loop treats the absence signal and a caught exception
identically: oracles agreeing on successes give identical runs. -/
lemma xLoop_congr (d₁ d₂ : Probe → DecodeOutcome) (dctx : Bool) (sc : ℚ) (wsize : ℕ)
    (scaledW y step : ℤ) (hf : sameFound d₁ d₂) :
    ∀ fuel x, xLoop d₁ dctx sc wsize scaledW y step fuel x
      = xLoop d₂ dctx sc wsize scaledW y step fuel x := by
  intro fuel
  induction fuel with
  | zero => intro x; rfl
  | succ f ih =>
    intro x
    unfold xLoop
    by_cases hx : x ≤ scaledW - wsize
    · rw [if_pos hx, if_pos hx]
      cases hd1 : d₁ (.window sc wsize x y) with
      | found payload => rw [(hf _ _).mp hd1]
      | notFound =>
        cases hd2 : d₂ (.window sc wsize x y) with
        | found payload => exact absurd ((hf _ _).mpr hd2) (by simp [hd1])
        | notFound => simp only [ih (x + step)]
        | error => simp only [ih (x + step)]
      | error =>
        cases hd2 : d₂ (.window sc wsize x y) with
        | found payload => exact absurd ((hf _ _).mpr hd2) (by simp [hd1])
        | notFound => simp only [ih (x + step)]
        | error => simp only [ih (x + step)]
    · rw [if_neg hx, if_neg hx]

/-- Row-loop version of `xLoop_congr`. -/
lemma yLoop_congr (d₁ d₂ : Probe → DecodeOutcome) (dctx : Bool) (sc : ℚ) (wsize : ℕ)
    (scaledW scaledH step : ℤ) (hf : sameFound d₁ d₂) :
    ∀ fuel y, yLoop d₁ dctx sc wsize scaledW scaledH step fuel y
      = yLoop d₂ dctx sc wsize scaledW scaledH step fuel y := by
  intro fuel
  induction fuel with
  | zero => intro y; rfl
  | succ f ih =>
    intro y
    unfold yLoop
    by_cases hy : y ≤ scaledH - wsize
    · rw [if_pos hy, if_pos hy]
      rw [xLoop_congr d₁ d₂ dctx sc wsize scaledW y step hf (f + 1) 0]
      cases he : xLoop d₂ dctx sc wsize scaledW y step (f + 1) 0 with
      | none => rfl
      | some t =>
        obtain ⟨ps, r, b⟩ := t
        cases r with
        | some payload => rfl
        | none => rw [ih (y + step)]
    · rw [if_neg hy, if_neg hy]

/-- Window-sizes-loop version of `xLoop_congr`. -/
lemma sizesLoop_congr (d₁ d₂ : Probe → DecodeOutcome) (dctx : Bool) (sc : ℚ)
    (scaledW scaledH : ℤ) (overlap : ℚ) (fuel : ℕ) (hf : sameFound d₁ d₂) :
    ∀ sizes, sizesLoop d₁ dctx sc scaledW scaledH overlap fuel sizes
      = sizesLoop d₂ dctx sc scaledW scaledH overlap fuel sizes := by
  intro sizes
  induction sizes with
  | nil => rfl
  | cons wsize rest ih =>
    unfold sizesLoop
    rw [yLoop_congr d₁ d₂ dctx sc wsize scaledW scaledH
      ⌊(wsize : ℚ) * (1 - overlap)⌋ hf fuel 0]
    cases he : yLoop d₂ dctx sc wsize scaledW scaledH
        ⌊(wsize : ℚ) * (1 - overlap)⌋ fuel 0 with
    | none => rfl
    | some t =>
      obtain ⟨ps, r, b⟩ := t
      cases r with
      | some payload => rfl
      | none => rw [ih]

/-- Scale-loop version of `xLoop_congr`. -/
lemma scaleLoop_congr (d₁ d₂ : Probe → DecodeOutcome) (dctx : Bool) (width height : ℕ)
    (maxS stepS overlap : ℚ) (sizes : List ℕ) (hf : sameFound d₁ d₂) :
    ∀ fuel sc, scaleLoop d₁ dctx width height maxS stepS overlap sizes fuel sc
      = scaleLoop d₂ dctx width height maxS stepS overlap sizes fuel sc := by
  intro fuel
  induction fuel with
  | zero => intro sc; rfl
  | succ f ih =>
    intro sc
    unfold scaleLoop
    by_cases hsc : sc ≤ maxS
    · rw [if_pos hsc, if_pos hsc]
      by_cases hdim : ⌊(width : ℚ) * sc⌋ ≤ 0 ∨ ⌊(height : ℚ) * sc⌋ ≤ 0
      · rw [if_pos hdim, if_pos hdim]
        exact ih (sc + stepS)
      · rw [if_neg hdim, if_neg hdim]
        cases hd1 : d₁ (.wholeFrame sc) with
        | found payload => rw [(hf _ _).mp hd1]
        | notFound =>
          cases hd2 : d₂ (.wholeFrame sc) with
          | found payload => exact absurd ((hf _ _).mpr hd2) (by simp [hd1])
          | notFound =>
            simp only [sizesLoop_congr d₁ d₂ dctx sc ⌊(width : ℚ) * sc⌋
              ⌊(height : ℚ) * sc⌋ overlap (f + 1) hf sizes, ih (sc + stepS)]
          | error =>
            simp only [sizesLoop_congr d₁ d₂ dctx sc ⌊(width : ℚ) * sc⌋
              ⌊(height : ℚ) * sc⌋ overlap (f + 1) hf sizes, ih (sc + stepS)]
        | error =>
          cases hd2 : d₂ (.wholeFrame sc) with
          | found payload => exact absurd ((hf _ _).mpr hd2) (by simp [hd1])
          | notFound =>
            simp only [sizesLoop_congr d₁ d₂ dctx sc ⌊(width : ℚ) * sc⌋
              ⌊(height : ℚ) * sc⌋ overlap (f + 1) hf sizes, ih (sc + stepS)]
          | error =>
            simp only [sizesLoop_congr d₁ d₂ dctx sc ⌊(width : ℚ) * sc⌋
              ⌊(height : ℚ) * sc⌋ overlap (f + 1) hf sizes, ih (sc + stepS)]
    · rw [if_neg hsc, if_neg hsc]

/-- Whole-scanner version of `xLoop_congr`: two oracles that agree on
successes and agree exactly at the native probe give identical scans. -/
lemma scan_congr (d₁ d₂ : Probe → DecodeOutcome) (width height : ℕ)
    (s : ScannerSettings) (ca : Bool) (fuel : ℕ) (hf : sameFound d₁ d₂)
    (hn : d₁ .native = d₂ .native) :
    scanWithSlidingWindow d₁ width height s ca fuel
      = scanWithSlidingWindow d₂ width height s ca fuel := by
  unfold scanWithSlidingWindow
  rw [hn]
  cases hd : d₂ .native with
  | found payload => rfl
  | error => rfl
  | notFound =>
    rw [scaleLoop_congr d₁ d₂ (s.debugMode && ca) width height
      s.maxScale s.scaleStep s.windowOverlap s.windowSizes hf fuel s.minScale]

/-- C8.  An exception raised inside a window or whole-frame probe is local
to that probe: the scan is identical to the scan in which that probe
instead reports the absence signal — the scan is not aborted, every later
probe is still attempted, and the final result is unchanged. -/
theorem probe_error_is_local_notfound (decode : Probe → DecodeOutcome) (p₀ : Probe)
    (width height : ℕ) (s : ScannerSettings) (ca : Bool) (fuel : ℕ)
    (hp : p₀ ≠ .native) (he : decode p₀ = .error) :
    scanWithSlidingWindow decode width height s ca fuel
      = scanWithSlidingWindow (patchProbe decode p₀) width height s ca fuel := by
  apply scan_congr
  · intro p payload
    unfold patchProbe
    by_cases hpp : p = p₀
    · subst hpp
      rw [he, if_pos rfl]
      constructor <;> intro hcon <;> exact absurd hcon (by simp)
    · rw [if_neg hpp]
  · unfold patchProbe
    rw [if_neg (fun hcon => hp hcon.symm)]

/-- Witness for C8: an oracle that throws inside the window probe at the
origin produces the same scan as its absence-signal patch. -/
theorem probe_error_is_local_notfound_witness :
    scanWithSlidingWindow cdErrWin 4 4 ⟨true, false, 1, 1, 1, 0, [2]⟩ true 9
      = scanWithSlidingWindow (patchProbe cdErrWin (.window 1 2 0 0)) 4 4
        ⟨true, false, 1, 1, 1, 0, [2]⟩ true 9 :=
  probe_error_is_local_notfound cdErrWin (.window 1 2 0 0) 4 4
    ⟨true, false, 1, 1, 1, 0, [2]⟩ true 9 (by decide) (by decide)

/-- `firstMatch` on an appended list: the first success of the
concatenation is the first success of the first part when one exists, and
otherwise the first success of the second part shifted past the first. -/
lemma firstMatch_append (d : Probe → DecodeOutcome) :
    ∀ as bs, firstMatch d (as ++ bs)
      = match firstMatch d as with
        | some t => some t
        | none => (firstMatch d bs).map (fun t => (as ++ t.1, t.2.1, t.2.2)) := by
  intro as
  induction as with
  | nil =>
    intro bs
    simp only [List.nil_append, firstMatch]
    cases hb : firstMatch d bs with
    | none => rfl
    | some t => obtain ⟨a, b, c⟩ := t; rfl
  | cons p as ih =>
    intro bs
    simp only [List.cons_append, firstMatch, List.append_eq]
    cases hd : d p with
    | found payload => rfl
    | notFound =>
      rw [ih bs]
      cases ha : firstMatch d as with
      | some t => obtain ⟨a, b, c⟩ := t; rfl
      | none =>
        cases hb : firstMatch d bs with
        | none => rfl
        | some t => obtain ⟨a, b, c⟩ := t; rfl
    | error =>
      rw [ih bs]
      cases ha : firstMatch d as with
      | some t => obtain ⟨a, b, c⟩ := t; rfl
      | none =>
        cases hb : firstMatch d bs with
        | none => rfl
        | some t => obtain ⟨a, b, c⟩ := t; rfl

/-- The successful probe reported by `firstMatch` is a member of the list. -/
lemma firstMatch_mem (d : Probe → DecodeOutcome) :
    ∀ l pre p payload, firstMatch d l = some (pre, p, payload) → p ∈ l := by
  intro l
  induction l with
  | nil => intro pre p payload h; simp [firstMatch] at h
  | cons q l ih =>
    intro pre p payload h
    unfold firstMatch at h
    cases hd : d q with
    | found pay =>
      rw [hd] at h
      simp only [Option.some.injEq, Prod.mk.injEq] at h
      obtain ⟨-, hqp, -⟩ := h
      rw [← hqp]
      exact List.mem_cons_self q l
    | notFound =>
      rw [hd] at h
      cases hl : firstMatch d l with
      | none => rw [hl] at h; simp at h
      | some t =>
        obtain ⟨pre₂, p₂, pay₂⟩ := t
        rw [hl] at h
        simp only [Option.map_some', Option.some.injEq, Prod.mk.injEq] at h
        obtain ⟨-, hp2, -⟩ := h
        rw [← hp2]
        exact List.mem_cons_of_mem q (ih _ _ _ hl)
    | error =>
      rw [hd] at h
      cases hl : firstMatch d l with
      | none => rw [hl] at h; simp at h
      | some t =>
        obtain ⟨pre₂, p₂, pay₂⟩ := t
        rw [hl] at h
        simp only [Option.map_some', Option.some.injEq, Prod.mk.injEq] at h
        obtain ⟨-, hp2, -⟩ := h
        rw [← hp2]
        exact List.mem_cons_of_mem q (ih _ _ _ hl)

/-- A run of the window loop under the all-failing oracle finds nothing
and emits nothing. -/
lemma xLoop_allFail_none (dctx : Bool) (sc : ℚ) (wsize : ℕ) (scaledW y step : ℤ) :
    ∀ fuel x ps r b, xLoop allFail dctx sc wsize scaledW y step fuel x = some (ps, r, b) →
      r = none ∧ b = false := by
  intro fuel
  induction fuel with
  | zero => intro x ps r b h; simp [xLoop] at h
  | succ f ih =>
    intro x ps r b h
    unfold xLoop at h
    by_cases hx : x ≤ scaledW - wsize
    · rw [if_pos hx] at h
      simp only [allFail] at h
      cases hr : xLoop allFail dctx sc wsize scaledW y step f (x + step) with
      | none => rw [hr] at h; simp at h
      | some t =>
        obtain ⟨ps₂, r₂, b₂⟩ := t
        rw [hr] at h
        simp only [Option.some.injEq, Prod.mk.injEq] at h
        obtain ⟨-, hr2, hb2⟩ := h
        subst hr2; subst hb2
        exact ih (x + step) ps₂ r₂ b₂ hr
    · rw [if_neg hx] at h
      simp only [Option.some.injEq, Prod.mk.injEq] at h
      obtain ⟨-, hr, hb⟩ := h
      exact ⟨hr.symm, hb.symm⟩

/-- A run of the row loop under the all-failing oracle finds nothing and
emits nothing. -/
lemma yLoop_allFail_none (dctx : Bool) (sc : ℚ) (wsize : ℕ) (scaledW scaledH step : ℤ) :
    ∀ fuel y ps r b, yLoop allFail dctx sc wsize scaledW scaledH step fuel y = some (ps, r, b) →
      r = none ∧ b = false := by
  intro fuel
  induction fuel with
  | zero => intro y ps r b h; simp [yLoop] at h
  | succ f ih =>
    intro y ps r b h
    unfold yLoop at h
    by_cases hy : y ≤ scaledH - wsize
    · rw [if_pos hy] at h
      cases hx : xLoop allFail dctx sc wsize scaledW y step (f + 1) 0 with
      | none => rw [hx] at h; simp at h
      | some t =>
        obtain ⟨ps₂, r₂, b₂⟩ := t
        obtain ⟨hr2, hb2⟩ := xLoop_allFail_none dctx sc wsize scaledW y step (f + 1) 0 ps₂ r₂ b₂ hx
        subst hr2; subst hb2
        rw [hx] at h
        cases hrec : yLoop allFail dctx sc wsize scaledW scaledH step f (y + step) with
        | none => rw [hrec] at h; simp at h
        | some u =>
          obtain ⟨qs, r₃, b₃⟩ := u
          rw [hrec] at h
          simp only [Option.some.injEq, Prod.mk.injEq] at h
          obtain ⟨-, hr3, hb3⟩ := h
          subst hr3; subst hb3
          exact ih (y + step) qs r₃ b₃ hrec
    · rw [if_neg hy] at h
      simp only [Option.some.injEq, Prod.mk.injEq] at h
      obtain ⟨-, hr, hb⟩ := h
      exact ⟨hr.symm, hb.symm⟩

/-- A run of the window-sizes loop under the all-failing oracle finds
nothing and emits nothing. -/
lemma sizesLoop_allFail_none (dctx : Bool) (sc : ℚ) (scaledW scaledH : ℤ)
    (overlap : ℚ) (fuel : ℕ) :
    ∀ sizes ps r b, sizesLoop allFail dctx sc scaledW scaledH overlap fuel sizes
        = some (ps, r, b) → r = none ∧ b = false := by
  intro sizes
  induction sizes with
  | nil =>
    intro ps r b h
    simp only [sizesLoop, Option.some.injEq, Prod.mk.injEq] at h
    obtain ⟨-, hr, hb⟩ := h
    exact ⟨hr.symm, hb.symm⟩
  | cons wsize rest ih =>
    intro ps r b h
    unfold sizesLoop at h
    cases hy : yLoop allFail dctx sc wsize scaledW scaledH
        ⌊(wsize : ℚ) * (1 - overlap)⌋ fuel 0 with
    | none => rw [hy] at h; simp at h
    | some t =>
      obtain ⟨ps₂, r₂, b₂⟩ := t
      obtain ⟨hr2, hb2⟩ := yLoop_allFail_none dctx sc wsize scaledW scaledH
        ⌊(wsize : ℚ) * (1 - overlap)⌋ fuel 0 ps₂ r₂ b₂ hy
      subst hr2; subst hb2
      rw [hy] at h
      cases hrest : sizesLoop allFail dctx sc scaledW scaledH overlap fuel rest with
      | none => rw [hrest] at h; simp at h
      | some u =>
        obtain ⟨qs, r₃, b₃⟩ := u
        rw [hrest] at h
        simp only [Option.some.injEq, Prod.mk.injEq] at h
        obtain ⟨-, hr3, hb3⟩ := h
        subst hr3; subst hb3
        exact ih qs r₃ b₃ hrest

/-- A run of the scale loop under the all-failing oracle finds nothing
and emits nothing. -/
lemma scaleLoop_allFail_none (dctx : Bool) (width height : ℕ)
    (maxS stepS overlap : ℚ) (sizes : List ℕ) :
    ∀ fuel sc ps rs r b, scaleLoop allFail dctx width height maxS stepS overlap sizes fuel sc
        = some (ps, rs, r, b) → r = none ∧ b = false := by
  intro fuel
  induction fuel with
  | zero => intro sc ps rs r b h; simp [scaleLoop] at h
  | succ f ih =>
    intro sc ps rs r b h
    unfold scaleLoop at h
    by_cases hsc : sc ≤ maxS
    · rw [if_pos hsc] at h
      by_cases hdim : ⌊(width : ℚ) * sc⌋ ≤ 0 ∨ ⌊(height : ℚ) * sc⌋ ≤ 0
      · rw [if_pos hdim] at h
        exact ih (sc + stepS) ps rs r b h
      · rw [if_neg hdim] at h
        simp only [allFail] at h
        cases hsz : sizesLoop allFail dctx sc ⌊(width : ℚ) * sc⌋ ⌊(height : ℚ) * sc⌋
            overlap (f + 1) sizes with
        | none => rw [hsz] at h; simp at h
        | some t =>
          obtain ⟨ps₂, r₂, b₂⟩ := t
          obtain ⟨hr2, hb2⟩ := sizesLoop_allFail_none dctx sc ⌊(width : ℚ) * sc⌋
            ⌊(height : ℚ) * sc⌋ overlap (f + 1) sizes ps₂ r₂ b₂ hsz
          subst hr2; subst hb2
          rw [hsz] at h
          cases hrec : scaleLoop allFail dctx width height maxS stepS overlap sizes
              f (sc + stepS) with
          | none => rw [hrec] at h; simp at h
          | some u =>
            obtain ⟨qs, rs₃, r₃, b₃⟩ := u
            rw [hrec] at h
            simp only [Option.some.injEq, Prod.mk.injEq] at h
            obtain ⟨-, -, hr3, hb3⟩ := h
            subst hr3; subst hb3
            exact (ih (sc + stepS) qs rs₃ r₃ b₃ hrec)
    · rw [if_neg hsc] at h
      simp only [Option.some.injEq, Prod.mk.injEq] at h
      obtain ⟨-, -, hr, hb⟩ := h
      exact ⟨hr.symm, hb.symm⟩

/-- Simulation of the inner window loop: if the all-failing run of the
loop performs probes `cs`, then under any oracle the loop performs exactly
the `firstMatch` prefix of `cs` and returns the first success (or performs
all of `cs` when the oracle succeeds nowhere on it). -/
lemma xLoop_sim (decode : Probe → DecodeOutcome) (dctx : Bool) (sc : ℚ) (wsize : ℕ)
    (scaledW y step : ℤ) :
    ∀ fuel x cs b₀, xLoop allFail dctx sc wsize scaledW y step fuel x = some (cs, none, b₀) →
      (firstMatch decode cs = none →
        xLoop decode dctx sc wsize scaledW y step fuel x = some (cs, none, false))
      ∧ (∀ pre p payload, firstMatch decode cs = some (pre, p, payload) →
        xLoop decode dctx sc wsize scaledW y step fuel x = some (pre, some payload, dctx)) := by
  intro fuel
  induction fuel with
  | zero => intro x cs b₀ h; simp [xLoop] at h
  | succ f ih =>
    intro x cs b₀ h
    unfold xLoop at h
    by_cases hx : x ≤ scaledW - wsize
    · rw [if_pos hx] at h
      simp only [allFail] at h
      cases hrec : xLoop allFail dctx sc wsize scaledW y step f (x + step) with
      | none => rw [hrec] at h; simp at h
      | some t =>
        obtain ⟨ps, r, b⟩ := t
        obtain ⟨hr, hb⟩ := xLoop_allFail_none dctx sc wsize scaledW y step f (x + step) ps r b hrec
        subst hr; subst hb
        rw [hrec] at h
        simp only [Option.some.injEq, Prod.mk.injEq] at h
        obtain ⟨hcs, -, -⟩ := h
        subst hcs
        obtain ⟨ih1, ih2⟩ := ih (x + step) ps false hrec
        constructor
        · intro hfm
          simp only [firstMatch] at hfm
          cases hdec : decode (.window sc wsize x y) with
          | found pay => rw [hdec] at hfm; simp at hfm
          | notFound =>
            rw [hdec] at hfm
            cases hf : firstMatch decode ps with
            | some t => rw [hf] at hfm; simp at hfm
            | none =>
              unfold xLoop
              rw [if_pos hx, hdec, ih1 hf]
          | error =>
            rw [hdec] at hfm
            cases hf : firstMatch decode ps with
            | some t => rw [hf] at hfm; simp at hfm
            | none =>
              unfold xLoop
              rw [if_pos hx, hdec, ih1 hf]
        · intro pre p payload hfm
          simp only [firstMatch] at hfm
          cases hdec : decode (.window sc wsize x y) with
          | found pay =>
            rw [hdec] at hfm
            simp only [Option.some.injEq, Prod.mk.injEq] at hfm
            obtain ⟨h1, h2, h3⟩ := hfm
            subst h1; subst h2; subst h3
            unfold xLoop
            rw [if_pos hx, hdec]
          | notFound =>
            rw [hdec] at hfm
            cases hf : firstMatch decode ps with
            | none => rw [hf] at hfm; simp at hfm
            | some t =>
              obtain ⟨pre₂, p₂, pay₂⟩ := t
              rw [hf] at hfm
              simp only [Option.map_some', Option.some.injEq, Prod.mk.injEq] at hfm
              obtain ⟨h1, h2, h3⟩ := hfm
              subst h1; subst h2; subst h3
              unfold xLoop
              rw [if_pos hx, hdec, ih2 _ _ _ hf]
          | error =>
            rw [hdec] at hfm
            cases hf : firstMatch decode ps with
            | none => rw [hf] at hfm; simp at hfm
            | some t =>
              obtain ⟨pre₂, p₂, pay₂⟩ := t
              rw [hf] at hfm
              simp only [Option.map_some', Option.some.injEq, Prod.mk.injEq] at hfm
              obtain ⟨h1, h2, h3⟩ := hfm
              subst h1; subst h2; subst h3
              unfold xLoop
              rw [if_pos hx, hdec, ih2 _ _ _ hf]
    · rw [if_neg hx] at h
      simp only [Option.some.injEq, Prod.mk.injEq] at h
      obtain ⟨hcs, -, -⟩ := h
      subst hcs
      constructor
      · intro _
        unfold xLoop
        rw [if_neg hx]
      · intro pre p payload hfm
        simp [firstMatch] at hfm

/-- Simulation of the row loop, in the style of `xLoop_sim`. -/
lemma yLoop_sim (decode : Probe → DecodeOutcome) (dctx : Bool) (sc : ℚ) (wsize : ℕ)
    (scaledW scaledH step : ℤ) :
    ∀ fuel y cs b₀,
      yLoop allFail dctx sc wsize scaledW scaledH step fuel y = some (cs, none, b₀) →
      (firstMatch decode cs = none →
        yLoop decode dctx sc wsize scaledW scaledH step fuel y = some (cs, none, false))
      ∧ (∀ pre p payload, firstMatch decode cs = some (pre, p, payload) →
        yLoop decode dctx sc wsize scaledW scaledH step fuel y = some (pre, some payload, dctx)) := by
  intro fuel
  induction fuel with
  | zero => intro y cs b₀ h; simp [yLoop] at h
  | succ f ih =>
    intro y cs b₀ h
    unfold yLoop at h
    by_cases hy : y ≤ scaledH - wsize
    · rw [if_pos hy] at h
      cases hxa : xLoop allFail dctx sc wsize scaledW y step (f + 1) 0 with
      | none => rw [hxa] at h; simp at h
      | some t =>
        obtain ⟨ps, r, b⟩ := t
        obtain ⟨hr, hb⟩ := xLoop_allFail_none dctx sc wsize scaledW y step (f + 1) 0 ps r b hxa
        subst hr; subst hb
        rw [hxa] at h
        cases hya : yLoop allFail dctx sc wsize scaledW scaledH step f (y + step) with
        | none => rw [hya] at h; simp at h
        | some u =>
          obtain ⟨qs, r₂, b₂⟩ := u
          rw [hya] at h
          simp only [Option.some.injEq, Prod.mk.injEq] at h
          obtain ⟨hcs, hr2, -⟩ := h
          subst hr2; subst hcs
          obtain ⟨hx1, hx2⟩ := xLoop_sim decode dctx sc wsize scaledW y step (f + 1) 0 ps false hxa
          obtain ⟨ihy1, ihy2⟩ := ih (y + step) qs b₂ hya
          constructor
          · intro hfm
            rw [firstMatch_append decode ps qs] at hfm
            cases hfa : firstMatch decode ps with
            | some t => rw [hfa] at hfm; simp at hfm
            | none =>
              rw [hfa] at hfm
              cases hfb : firstMatch decode qs with
              | some t => rw [hfb] at hfm; simp at hfm
              | none =>
                unfold yLoop
                rw [if_pos hy, hx1 hfa, ihy1 hfb]
          · intro pre p payload hfm
            rw [firstMatch_append decode ps qs] at hfm
            cases hfa : firstMatch decode ps with
            | some t =>
              obtain ⟨pre₂, p₂, pay₂⟩ := t
              rw [hfa] at hfm
              simp only [Option.some.injEq, Prod.mk.injEq] at hfm
              obtain ⟨h1, h2, h3⟩ := hfm
              subst h1; subst h2; subst h3
              unfold yLoop
              rw [if_pos hy, hx2 _ _ _ hfa]
            | none =>
              rw [hfa] at hfm
              cases hfb : firstMatch decode qs with
              | none => rw [hfb] at hfm; simp at hfm
              | some t =>
                obtain ⟨pre₂, p₂, pay₂⟩ := t
                rw [hfb] at hfm
                simp only [Option.map_some', Option.some.injEq, Prod.mk.injEq] at hfm
                obtain ⟨h1, h2, h3⟩ := hfm
                subst h1; subst h2; subst h3
                unfold yLoop
                rw [if_pos hy, hx1 hfa, ihy2 _ _ _ hfb]
    · rw [if_neg hy] at h
      simp only [Option.some.injEq, Prod.mk.injEq] at h
      obtain ⟨hcs, -, -⟩ := h
      subst hcs
      constructor
      · intro _
        unfold yLoop
        rw [if_neg hy]
      · intro pre p payload hfm
        simp [firstMatch] at hfm

/-- Every probe performed by the inner window loop is a window probe. -/
lemma xLoop_probes_windows (decode : Probe → DecodeOutcome) (dctx : Bool) (sc : ℚ)
    (wsize : ℕ) (scaledW y step : ℤ) :
    ∀ fuel x ps r b, xLoop decode dctx sc wsize scaledW y step fuel x = some (ps, r, b) →
      ∀ q ∈ ps, q.isWindow = true := by
  intro fuel
  induction fuel with
  | zero => intro x ps r b h; simp [xLoop] at h
  | succ f ih =>
    intro x ps r b h
    unfold xLoop at h
    by_cases hx : x ≤ scaledW - wsize
    · rw [if_pos hx] at h
      cases hdec : decode (.window sc wsize x y) with
      | found pay =>
        rw [hdec] at h
        simp only [Option.some.injEq, Prod.mk.injEq] at h
        obtain ⟨hps, -, -⟩ := h
        subst hps
        intro q hq
        simp only [List.mem_singleton] at hq
        subst hq
        rfl
      | notFound =>
        rw [hdec] at h
        cases hrec : xLoop decode dctx sc wsize scaledW y step f (x + step) with
        | none => rw [hrec] at h; simp at h
        | some t =>
          obtain ⟨ps₂, r₂, b₂⟩ := t
          rw [hrec] at h
          simp only [Option.some.injEq, Prod.mk.injEq] at h
          obtain ⟨hps, -, -⟩ := h
          subst hps
          intro q hq
          cases List.mem_cons.mp hq with
          | inl hq => subst hq; rfl
          | inr hq => exact ih (x + step) ps₂ r₂ b₂ hrec q hq
      | error =>
        rw [hdec] at h
        cases hrec : xLoop decode dctx sc wsize scaledW y step f (x + step) with
        | none => rw [hrec] at h; simp at h
        | some t =>
          obtain ⟨ps₂, r₂, b₂⟩ := t
          rw [hrec] at h
          simp only [Option.some.injEq, Prod.mk.injEq] at h
          obtain ⟨hps, -, -⟩ := h
          subst hps
          intro q hq
          cases List.mem_cons.mp hq with
          | inl hq => subst hq; rfl
          | inr hq => exact ih (x + step) ps₂ r₂ b₂ hrec q hq
    · rw [if_neg hx] at h
      simp only [Option.some.injEq, Prod.mk.injEq] at h
      obtain ⟨hps, -, -⟩ := h
      subst hps
      intro q hq
      simp at hq

/-- Every probe performed by the row loop is a window probe. -/
lemma yLoop_probes_windows (decode : Probe → DecodeOutcome) (dctx : Bool) (sc : ℚ)
    (wsize : ℕ) (scaledW scaledH step : ℤ) :
    ∀ fuel y ps r b, yLoop decode dctx sc wsize scaledW scaledH step fuel y = some (ps, r, b) →
      ∀ q ∈ ps, q.isWindow = true := by
  intro fuel
  induction fuel with
  | zero => intro y ps r b h; simp [yLoop] at h
  | succ f ih =>
    intro y ps r b h
    unfold yLoop at h
    by_cases hy : y ≤ scaledH - wsize
    · rw [if_pos hy] at h
      cases hxa : xLoop decode dctx sc wsize scaledW y step (f + 1) 0 with
      | none => rw [hxa] at h; simp at h
      | some t =>
        obtain ⟨ps₂, r₂, b₂⟩ := t
        rw [hxa] at h
        cases r₂ with
        | some pay =>
          simp only [Option.some.injEq, Prod.mk.injEq] at h
          obtain ⟨hps, -, -⟩ := h
          subst hps
          exact xLoop_probes_windows decode dctx sc wsize scaledW y step (f + 1) 0 ps₂ _ b₂ hxa
        | none =>
          cases hrec : yLoop decode dctx sc wsize scaledW scaledH step f (y + step) with
          | none => rw [hrec] at h; simp at h
          | some u =>
            obtain ⟨qs, r₃, b₃⟩ := u
            rw [hrec] at h
            simp only [Option.some.injEq, Prod.mk.injEq] at h
            obtain ⟨hps, -, -⟩ := h
            subst hps
            intro q hq
            cases List.mem_append.mp hq with
            | inl hq =>
              exact xLoop_probes_windows decode dctx sc wsize scaledW y step (f + 1) 0
                ps₂ _ b₂ hxa q hq
            | inr hq => exact ih (y + step) qs r₃ b₃ hrec q hq
    · rw [if_neg hy] at h
      simp only [Option.some.injEq, Prod.mk.injEq] at h
      obtain ⟨hps, -, -⟩ := h
      subst hps
      intro q hq
      simp at hq

/-- Every probe performed by the window-sizes loop is a window probe. -/
lemma sizesLoop_probes_windows (decode : Probe → DecodeOutcome) (dctx : Bool) (sc : ℚ)
    (scaledW scaledH : ℤ) (overlap : ℚ) (fuel : ℕ) :
    ∀ sizes ps r b, sizesLoop decode dctx sc scaledW scaledH overlap fuel sizes = some (ps, r, b) →
      ∀ q ∈ ps, q.isWindow = true := by
  intro sizes
  induction sizes with
  | nil =>
    intro ps r b h
    simp only [sizesLoop, Option.some.injEq, Prod.mk.injEq] at h
    obtain ⟨hps, -, -⟩ := h
    subst hps
    intro q hq
    simp at hq
  | cons wsize rest ih =>
    intro ps r b h
    unfold sizesLoop at h
    cases hya : yLoop decode dctx sc wsize scaledW scaledH
        ⌊(wsize : ℚ) * (1 - overlap)⌋ fuel 0 with
    | none => rw [hya] at h; simp at h
    | some t =>
      obtain ⟨ps₂, r₂, b₂⟩ := t
      rw [hya] at h
      cases r₂ with
      | some pay =>
        simp only [Option.some.injEq, Prod.mk.injEq] at h
        obtain ⟨hps, -, -⟩ := h
        subst hps
        exact yLoop_probes_windows decode dctx sc wsize scaledW scaledH
          ⌊(wsize : ℚ) * (1 - overlap)⌋ fuel 0 ps₂ _ b₂ hya
      | none =>
        cases hrest : sizesLoop decode dctx sc scaledW scaledH overlap fuel rest with
        | none => rw [hrest] at h; simp at h
        | some u =>
          obtain ⟨qs, r₃, b₃⟩ := u
          rw [hrest] at h
          simp only [Option.some.injEq, Prod.mk.injEq] at h
          obtain ⟨hps, -, -⟩ := h
          subst hps
          intro q hq
          cases List.mem_append.mp hq with
          | inl hq =>
            exact yLoop_probes_windows decode dctx sc wsize scaledW scaledH
              ⌊(wsize : ℚ) * (1 - overlap)⌋ fuel 0 ps₂ _ b₂ hya q hq
          | inr hq => exact ih qs r₃ b₃ hrest q hq

/-- Simulation of the window-sizes loop, in the style of `xLoop_sim`. -/
lemma sizesLoop_sim (decode : Probe → DecodeOutcome) (dctx : Bool) (sc : ℚ)
    (scaledW scaledH : ℤ) (overlap : ℚ) (fuel : ℕ) :
    ∀ sizes cs b₀,
      sizesLoop allFail dctx sc scaledW scaledH overlap fuel sizes = some (cs, none, b₀) →
      (firstMatch decode cs = none →
        sizesLoop decode dctx sc scaledW scaledH overlap fuel sizes = some (cs, none, false))
      ∧ (∀ pre p payload, firstMatch decode cs = some (pre, p, payload) →
        sizesLoop decode dctx sc scaledW scaledH overlap fuel sizes
          = some (pre, some payload, dctx)) := by
  intro sizes
  induction sizes with
  | nil =>
    intro cs b₀ h
    simp only [sizesLoop, Option.some.injEq, Prod.mk.injEq] at h
    obtain ⟨hcs, -, -⟩ := h
    subst hcs
    constructor
    · intro _; rfl
    · intro pre p payload hfm
      simp [firstMatch] at hfm
  | cons wsize rest ih =>
    intro cs b₀ h
    unfold sizesLoop at h
    cases hya : yLoop allFail dctx sc wsize scaledW scaledH
        ⌊(wsize : ℚ) * (1 - overlap)⌋ fuel 0 with
    | none => rw [hya] at h; simp at h
    | some t =>
      obtain ⟨ps, r, b⟩ := t
      obtain ⟨hr, hb⟩ := yLoop_allFail_none dctx sc wsize scaledW scaledH
        ⌊(wsize : ℚ) * (1 - overlap)⌋ fuel 0 ps r b hya
      subst hr; subst hb
      rw [hya] at h
      cases hrest : sizesLoop allFail dctx sc scaledW scaledH overlap fuel rest with
      | none => rw [hrest] at h; simp at h
      | some u =>
        obtain ⟨qs, r₂, b₂⟩ := u
        rw [hrest] at h
        simp only [Option.some.injEq, Prod.mk.injEq] at h
        obtain ⟨hcs, hr2, -⟩ := h
        subst hr2; subst hcs
        obtain ⟨hy1, hy2⟩ := yLoop_sim decode dctx sc wsize scaledW scaledH
          ⌊(wsize : ℚ) * (1 - overlap)⌋ fuel 0 ps false hya
        obtain ⟨ihs1, ihs2⟩ := ih qs b₂ hrest
        constructor
        · intro hfm
          rw [firstMatch_append decode ps qs] at hfm
          cases hfa : firstMatch decode ps with
          | some t => rw [hfa] at hfm; simp at hfm
          | none =>
            rw [hfa] at hfm
            cases hfb : firstMatch decode qs with
            | some t => rw [hfb] at hfm; simp at hfm
            | none =>
              unfold sizesLoop
              rw [hy1 hfa, ihs1 hfb]
        · intro pre p payload hfm
          rw [firstMatch_append decode ps qs] at hfm
          cases hfa : firstMatch decode ps with
          | some t =>
            obtain ⟨pre₂, p₂, pay₂⟩ := t
            rw [hfa] at hfm
            simp only [Option.some.injEq, Prod.mk.injEq] at hfm
            obtain ⟨h1, h2, h3⟩ := hfm
            subst h1; subst h2; subst h3
            unfold sizesLoop
            rw [hy2 _ _ _ hfa]
          | none =>
            rw [hfa] at hfm
            cases hfb : firstMatch decode qs with
            | none => rw [hfb] at hfm; simp at hfm
            | some t =>
              obtain ⟨pre₂, p₂, pay₂⟩ := t
              rw [hfb] at hfm
              simp only [Option.map_some', Option.some.injEq, Prod.mk.injEq] at hfm
              obtain ⟨h1, h2, h3⟩ := hfm
              subst h1; subst h2; subst h3
              unfold sizesLoop
              rw [hy1 hfa, ihs2 _ _ _ hfb]

/-- Simulation of the scale loop: under any oracle the loop performs
exactly the `firstMatch` prefix of the all-failing run's probe trace and
reports the first success, with the emission flag determined by whether
the successful probe is a window probe. -/
lemma scaleLoop_sim (decode : Probe → DecodeOutcome) (dctx : Bool) (width height : ℕ)
    (maxS stepS overlap : ℚ) (sizes : List ℕ) :
    ∀ fuel sc cs rs b₀,
      scaleLoop allFail dctx width height maxS stepS overlap sizes fuel sc
        = some (cs, rs, none, b₀) →
      (firstMatch decode cs = none →
        scaleLoop decode dctx width height maxS stepS overlap sizes fuel sc
          = some (cs, rs, none, false))
      ∧ (∀ pre p payload, firstMatch decode cs = some (pre, p, payload) →
        ∃ rs₂, scaleLoop decode dctx width height maxS stepS overlap sizes fuel sc
          = some (pre, rs₂, some payload, p.foundEmit dctx)) := by
  intro fuel
  induction fuel with
  | zero => intro sc cs rs b₀ h; simp [scaleLoop] at h
  | succ f ih =>
    intro sc cs rs b₀ h
    unfold scaleLoop at h
    by_cases hsc : sc ≤ maxS
    · rw [if_pos hsc] at h
      by_cases hdim : ⌊(width : ℚ) * sc⌋ ≤ 0 ∨ ⌊(height : ℚ) * sc⌋ ≤ 0
      · rw [if_pos hdim] at h
        obtain ⟨ih1, ih2⟩ := ih (sc + stepS) cs rs b₀ h
        constructor
        · intro hfm
          unfold scaleLoop
          rw [if_pos hsc, if_pos hdim]
          exact ih1 hfm
        · intro pre p payload hfm
          obtain ⟨rs₂, hrw⟩ := ih2 pre p payload hfm
          refine ⟨rs₂, ?_⟩
          unfold scaleLoop
          rw [if_pos hsc, if_pos hdim]
          exact hrw
      · rw [if_neg hdim] at h
        simp only [allFail] at h
        cases hsz : sizesLoop allFail dctx sc ⌊(width : ℚ) * sc⌋ ⌊(height : ℚ) * sc⌋
            overlap (f + 1) sizes with
        | none => rw [hsz] at h; simp at h
        | some t =>
          obtain ⟨ps, r, b⟩ := t
          obtain ⟨hr, hb⟩ := sizesLoop_allFail_none dctx sc ⌊(width : ℚ) * sc⌋
            ⌊(height : ℚ) * sc⌋ overlap (f + 1) sizes ps r b hsz
          subst hr; subst hb
          rw [hsz] at h
          cases hrec : scaleLoop allFail dctx width height maxS stepS overlap sizes
              f (sc + stepS) with
          | none => rw [hrec] at h; simp at h
          | some u =>
            obtain ⟨qs, rs₃, r₃, b₃⟩ := u
            rw [hrec] at h
            simp only [Option.some.injEq, Prod.mk.injEq] at h
            obtain ⟨hcs, hrs, hr3, -⟩ := h
            subst hr3; subst hcs; subst hrs
            obtain ⟨hs1, hs2⟩ := sizesLoop_sim decode dctx sc ⌊(width : ℚ) * sc⌋
              ⌊(height : ℚ) * sc⌋ overlap (f + 1) sizes ps false hsz
            obtain ⟨ihr1, ihr2⟩ := ih (sc + stepS) qs rs₃ b₃ hrec
            constructor
            · intro hfm
              simp only [firstMatch] at hfm
              cases hdec : decode (.wholeFrame sc) with
              | found pay => rw [hdec] at hfm; simp at hfm
              | notFound =>
                rw [hdec] at hfm
                rw [firstMatch_append decode ps qs] at hfm
                cases hfa : firstMatch decode ps with
                | some t => rw [hfa] at hfm; simp at hfm
                | none =>
                  rw [hfa] at hfm
                  cases hfb : firstMatch decode qs with
                  | some t => rw [hfb] at hfm; simp at hfm
                  | none =>
                    unfold scaleLoop
                    rw [if_pos hsc, if_neg hdim, hdec, hs1 hfa, ihr1 hfb]
              | error =>
                rw [hdec] at hfm
                rw [firstMatch_append decode ps qs] at hfm
                cases hfa : firstMatch decode ps with
                | some t => rw [hfa] at hfm; simp at hfm
                | none =>
                  rw [hfa] at hfm
                  cases hfb : firstMatch decode qs with
                  | some t => rw [hfb] at hfm; simp at hfm
                  | none =>
                    unfold scaleLoop
                    rw [if_pos hsc, if_neg hdim, hdec, hs1 hfa, ihr1 hfb]
            · intro pre p payload hfm
              simp only [firstMatch] at hfm
              cases hdec : decode (.wholeFrame sc) with
              | found pay =>
                rw [hdec] at hfm
                simp only [Option.some.injEq, Prod.mk.injEq] at hfm
                obtain ⟨h1, h2, h3⟩ := hfm
                subst h1; subst h2; subst h3
                refine ⟨[sc], ?_⟩
                unfold scaleLoop
                rw [if_pos hsc, if_neg hdim, hdec]
                rfl
              | notFound =>
                rw [hdec] at hfm
                rw [firstMatch_append decode ps qs] at hfm
                cases hfa : firstMatch decode ps with
                | some t =>
                  obtain ⟨pre₂, p₂, pay₂⟩ := t
                  rw [hfa] at hfm
                  simp only [Option.map_some', Option.some.injEq, Prod.mk.injEq] at hfm
                  obtain ⟨h1, h2, h3⟩ := hfm
                  subst h1; subst h2; subst h3
                  have hw : p₂.isWindow = true := sizesLoop_probes_windows allFail dctx sc
                    ⌊(width : ℚ) * sc⌋ ⌊(height : ℚ) * sc⌋ overlap (f + 1) sizes
                    ps none false hsz p₂ (firstMatch_mem decode ps _ _ _ hfa)
                  refine ⟨[sc], ?_⟩
                  unfold scaleLoop
                  rw [if_pos hsc, if_neg hdim, hdec, hs2 _ _ _ hfa]
                  simp [Probe.foundEmit, hw]
                | none =>
                  rw [hfa] at hfm
                  cases hfb : firstMatch decode qs with
                  | none => rw [hfb] at hfm; simp at hfm
                  | some t =>
                    obtain ⟨pre₃, p₃, pay₃⟩ := t
                    rw [hfb] at hfm
                    simp only [Option.map_some', Option.some.injEq, Prod.mk.injEq] at hfm
                    obtain ⟨h1, h2, h3⟩ := hfm
                    subst h1; subst h2; subst h3
                    obtain ⟨rs₄, hrw⟩ := ihr2 _ _ _ hfb
                    refine ⟨sc :: rs₄, ?_⟩
                    unfold scaleLoop
                    rw [if_pos hsc, if_neg hdim, hdec, hs1 hfa, hrw]
              | error =>
                rw [hdec] at hfm
                rw [firstMatch_append decode ps qs] at hfm
                cases hfa : firstMatch decode ps with
                | some t =>
                  obtain ⟨pre₂, p₂, pay₂⟩ := t
                  rw [hfa] at hfm
                  simp only [Option.map_some', Option.some.injEq, Prod.mk.injEq] at hfm
                  obtain ⟨h1, h2, h3⟩ := hfm
                  subst h1; subst h2; subst h3
                  have hw : p₂.isWindow = true := sizesLoop_probes_windows allFail dctx sc
                    ⌊(width : ℚ) * sc⌋ ⌊(height : ℚ) * sc⌋ overlap (f + 1) sizes
                    ps none false hsz p₂ (firstMatch_mem decode ps _ _ _ hfa)
                  refine ⟨[sc], ?_⟩
                  unfold scaleLoop
                  rw [if_pos hsc, if_neg hdim, hdec, hs2 _ _ _ hfa]
                  simp [Probe.foundEmit, hw]
                | none =>
                  rw [hfa] at hfm
                  cases hfb : firstMatch decode qs with
                  | none => rw [hfb] at hfm; simp at hfm
                  | some t =>
                    obtain ⟨pre₃, p₃, pay₃⟩ := t
                    rw [hfb] at hfm
                    simp only [Option.map_some', Option.some.injEq, Prod.mk.injEq] at hfm
                    obtain ⟨h1, h2, h3⟩ := hfm
                    subst h1; subst h2; subst h3
                    obtain ⟨rs₄, hrw⟩ := ihr2 _ _ _ hfb
                    refine ⟨sc :: rs₄, ?_⟩
                    unfold scaleLoop
                    rw [if_pos hsc, if_neg hdim, hdec, hs1 hfa, hrw]
    · rw [if_neg hsc] at h
      simp only [Option.some.injEq, Prod.mk.injEq] at h
      obtain ⟨hcs, hrs, -, -⟩ := h
      subst hcs; subst hrs
      constructor
      · intro _
        unfold scaleLoop
        rw [if_neg hsc]
      · intro pre p payload hfm
        simp [firstMatch] at hfm

/-- C2.  The probe trace `o₀.probes` of the all-failing run is the fixed
total probing order of the scanner (native attempt, then scales ascending
from `minScale` by `scaleStep`, within a scale the whole resampled frame
first, then window sizes in list order, then window positions row-major:
the loops generate `y` outer and ascending, `x` inner and ascending).
Whenever the oracle succeeds on at least one probe of that order (in
particular on two or more), the scan returns the payload of the probe
earliest in the order, its decode trace is exactly the prefix of the
order up to and including that probe — no probe after the first success
is attempted — and the emission flag is determined by that probe. -/
theorem first_match_priority (decode : Probe → DecodeOutcome) (width height : ℕ)
    (s : ScannerSettings) (ca : Bool) (fuel : ℕ) (o₀ : ScanOutcome)
    (pre : List Probe) (p : Probe) (payload : String)
    (hc : scanWithSlidingWindow allFail width height s false fuel = some (.done o₀))
    (hn : decode .native ≠ .error)
    (hm : firstMatch decode o₀.probes = some (pre, p, payload)) :
    scanView (scanWithSlidingWindow decode width height s ca fuel)
      = some (some payload, pre, p.foundEmit (s.debugMode && ca)) := by
  unfold scanWithSlidingWindow at hc
  simp only [allFail] at hc
  cases hadv : s.useAdvancedScanning with
  | false =>
    rw [hadv] at hc
    simp only [Bool.not_false, if_true, Option.some.injEq, ScanFinal.done.injEq] at hc
    subst hc
    have hm' : firstMatch decode [.native] = some (pre, p, payload) := hm
    simp only [firstMatch] at hm'
    cases hdec : decode .native with
    | error => exact absurd hdec hn
    | notFound => rw [hdec] at hm'; simp [firstMatch] at hm'
    | found pay =>
      rw [hdec] at hm'
      simp only [Option.some.injEq, Prod.mk.injEq] at hm'
      obtain ⟨h1, h2, h3⟩ := hm'
      subst h1; subst h2; subst h3
      unfold scanWithSlidingWindow
      rw [hdec]
      rfl
  | true =>
    rw [hadv] at hc
    simp only [Bool.not_true, Bool.false_eq_true, if_false, Bool.and_false] at hc
    cases hsl : scaleLoop allFail false width height s.maxScale s.scaleStep
        s.windowOverlap s.windowSizes fuel s.minScale with
    | none => rw [hsl] at hc; simp at hc
    | some t =>
      obtain ⟨ps₀, rs₀, r₀, b₀⟩ := t
      obtain ⟨hr0, hb0⟩ := scaleLoop_allFail_none false width height s.maxScale s.scaleStep
        s.windowOverlap s.windowSizes fuel s.minScale ps₀ rs₀ r₀ b₀ hsl
      subst hr0; subst hb0
      rw [hsl] at hc
      simp only [Option.some.injEq, ScanFinal.done.injEq] at hc
      subst hc
      have hm' : firstMatch decode (.native :: ps₀) = some (pre, p, payload) := hm
      simp only [firstMatch] at hm'
      cases hdec : decode .native with
      | error => exact absurd hdec hn
      | found pay =>
        rw [hdec] at hm'
        simp only [Option.some.injEq, Prod.mk.injEq] at hm'
        obtain ⟨h1, h2, h3⟩ := hm'
        subst h1; subst h2; subst h3
        unfold scanWithSlidingWindow
        rw [hdec]
        rfl
      | notFound =>
        rw [hdec] at hm'
        cases hf : firstMatch decode ps₀ with
        | none => rw [hf] at hm'; simp at hm'
        | some u =>
          obtain ⟨pre₂, p₂, pay₂⟩ := u
          rw [hf] at hm'
          simp only [Option.map_some', Option.some.injEq, Prod.mk.injEq] at hm'
          obtain ⟨h1, h2, h3⟩ := hm'
          subst h1; subst h2; subst h3
          have hconv := scaleLoop_debug_indep allFail false (s.debugMode && ca)
            width height s.maxScale s.scaleStep s.windowOverlap s.windowSizes fuel s.minScale
          rw [hsl] at hconv
          cases hsl2 : scaleLoop allFail (s.debugMode && ca) width height s.maxScale
              s.scaleStep s.windowOverlap s.windowSizes fuel s.minScale with
          | none => rw [hsl2] at hconv; simp at hconv
          | some u =>
            obtain ⟨ps₁, rs₁, r₁, b₁⟩ := u
            rw [hsl2] at hconv
            simp only [Option.map_some', Option.some.injEq, Prod.mk.injEq] at hconv
            obtain ⟨g1, g2, g3⟩ := hconv
            subst g1; subst g2; subst g3
            obtain ⟨-, hs2⟩ := scaleLoop_sim decode (s.debugMode && ca) width height
              s.maxScale s.scaleStep s.windowOverlap s.windowSizes fuel s.minScale
              ps₀ rs₀ b₁ hsl2
            obtain ⟨rs₂, hrw⟩ := hs2 pre₂ p₂ pay₂ hf
            unfold scanWithSlidingWindow
            rw [hdec]
            simp only [hadv, Bool.not_true, Bool.false_eq_true, if_false]
            rw [hrw]
            rfl

/-- Closed form of the inner window loop when the oracle always fails:
starting at `x`, with positive step, it probes exactly the `n` positions
`x, x + step, ..., x + (n-1)*step` determined by the loop bound. -/
lemma xLoop_tile (decode : Probe → DecodeOutcome) (dctx : Bool) (sc : ℚ) (wsize : ℕ)
    (scaledW y step : ℤ) (hdec : ∀ p, decode p = .notFound) :
    ∀ (n fuel : ℕ) (x : ℤ), n < fuel →
      scaledW - wsize < x + (n : ℤ) * step →
      (∀ i : ℕ, i < n → x + (i : ℤ) * step ≤ scaledW - wsize) →
      xLoop decode dctx sc wsize scaledW y step fuel x
        = some ((List.range n).map (fun i => .window sc wsize (x + (i : ℤ) * step) y),
            none, false) := by
  intro n
  induction n with
  | zero =>
    intro fuel x hfuel hupper _
    cases fuel with
    | zero => omega
    | succ f =>
      unfold xLoop
      rw [if_neg (by push_cast at hupper; omega)]
      simp
  | succ m ihm =>
    intro fuel x hfuel hupper hlower
    cases fuel with
    | zero => omega
    | succ f =>
      have hx : x ≤ scaledW - wsize := by
        have := hlower 0 (Nat.succ_pos m)
        push_cast at this
        omega
      have hrec := ihm f (x + step) (by omega)
        (by push_cast at hupper ⊢; linarith)
        (by
          intro i hi
          have := hlower (i + 1) (by omega)
          push_cast at this ⊢
          linarith)
      unfold xLoop
      rw [if_pos hx, hdec, hrec]
      simp only [Option.some.injEq, Prod.mk.injEq, and_true]
      rw [List.range_succ_eq_map, List.map_cons, List.map_map]
      congr 1
      · simp
      · apply List.map_congr_left
        intro i _
        simp only [Function.comp_apply, Probe.window.injEq, true_and, and_true]
        push_cast
        ring
  
/-- Closed form of the row loop when the oracle always fails: it probes
the row-major grid `gridProbes`. -/
lemma yLoop_tile (decode : Probe → DecodeOutcome) (dctx : Bool) (sc : ℚ) (wsize : ℕ)
    (scaledW scaledH step : ℤ) (hdec : ∀ p, decode p = .notFound)
    (nx : ℕ)
    (hxu : scaledW - wsize < 0 + (nx : ℤ) * step)
    (hxl : ∀ i : ℕ, i < nx → 0 + (i : ℤ) * step ≤ scaledW - wsize) :
    ∀ (m fuel : ℕ) (y : ℤ), m + nx < fuel →
      scaledH - wsize < y + (m : ℤ) * step →
      (∀ j : ℕ, j < m → y + (j : ℤ) * step ≤ scaledH - wsize) →
      yLoop decode dctx sc wsize scaledW scaledH step fuel y
        = some (gridProbes sc wsize step nx y m, none, false) := by
  intro m
  induction m with
  | zero =>
    intro fuel y hfuel hupper _
    cases fuel with
    | zero => omega
    | succ f =>
      unfold yLoop
      rw [if_neg (by push_cast at hupper; omega)]
      simp [gridProbes]
  | succ m ihm =>
    intro fuel y hfuel hupper hlower
    cases fuel with
    | zero => omega
    | succ f =>
      have hy : y ≤ scaledH - wsize := by
        have := hlower 0 (Nat.succ_pos m)
        push_cast at this
        omega
      have hxrow := xLoop_tile decode dctx sc wsize scaledW y step hdec nx (f + 1) 0
        (by omega) hxu hxl
      have hrec := ihm f (y + step) (by omega)
        (by push_cast at hupper ⊢; linarith)
        (by
          intro j hj
          have := hlower (j + 1) (by omega)
          push_cast at this ⊢
          linarith)
      have hrowlist : (List.range nx).map (fun (i : ℕ) => Probe.window sc wsize (0 + (i : ℤ) * step) y)
          = rowProbes sc wsize step y nx := by
        unfold rowProbes
        apply List.map_congr_left
        intro i _
        simp
      rw [hrowlist] at hxrow
      unfold yLoop
      rw [if_pos hy, hxrow, hrec]
      simp [gridProbes]

/-- Evaluation of the scale loop for the exhaustive-coverage
configuration `minScale = maxScale = scaleStep = 1`, `windowOverlap = 0`,
`windowSizes = [W]` on a `(k*W) x (k*W)` image with an oracle that always
fails: exactly one scale iteration runs and the probes are the whole
resampled frame followed by the full `k x k` window grid. -/
lemma scaleLoop_tiling (decode : Probe → DecodeOutcome) (dctx : Bool) (W k : ℕ)
    (fuel : ℕ) (hW : 0 < W) (hk : 0 < k) (hdec : ∀ p, decode p = .notFound)
    (hfuel : 2 * k + 2 ≤ fuel) :
    scaleLoop decode dctx (k * W) (k * W) 1 1 0 [W] fuel 1
      = some (.wholeFrame 1 :: gridProbes 1 W (W : ℤ) k 0 k, [1], none, false) := by
  cases fuel with
  | zero => omega
  | succ f =>
    have hWz : (0 : ℤ) < (W : ℤ) := by exact_mod_cast hW
    have hflr : ⌊((k * W : ℕ) : ℚ) * 1⌋ = ((k * W : ℕ) : ℤ) := by
      rw [mul_one]
      exact Int.floor_natCast _
    have hstepfl : ⌊((W : ℕ) : ℚ) * (1 - 0)⌋ = ((W : ℕ) : ℤ) := by
      rw [sub_zero, mul_one]
      exact Int.floor_natCast _
    have hposkw : (0 : ℤ) < ((k * W : ℕ) : ℤ) := by
      exact_mod_cast Nat.mul_pos hk hW
    have hpos : ¬(((k * W : ℕ) : ℤ) ≤ 0 ∨ ((k * W : ℕ) : ℤ) ≤ 0) := by omega
    have hxu : ((k * W : ℕ) : ℤ) - (W : ℕ) < 0 + (k : ℤ) * ((W : ℕ) : ℤ) := by
      push_cast
      linarith
    have hxl : ∀ i : ℕ, i < k → 0 + (i : ℤ) * ((W : ℕ) : ℤ) ≤ ((k * W : ℕ) : ℤ) - (W : ℕ) := by
      intro i hi
      have hik : (i : ℤ) + 1 ≤ (k : ℤ) := by exact_mod_cast hi
      push_cast
      nlinarith
    have hyl := yLoop_tile decode dctx 1 W ((k * W : ℕ) : ℤ) ((k * W : ℕ) : ℤ)
      ((W : ℕ) : ℤ) hdec k hxu hxl k (f + 1) 0 (by omega)
      (by
        push_cast
        linarith)
      (by
        intro j hj
        have hjk : (j : ℤ) + 1 ≤ (k : ℤ) := by exact_mod_cast hj
        push_cast
        nlinarith)
    have hsz : sizesLoop decode dctx 1 ((k * W : ℕ) : ℤ) ((k * W : ℕ) : ℤ) 0 (f + 1) [W]
        = some (gridProbes 1 W ((W : ℕ) : ℤ) k 0 k, none, false) := by
      unfold sizesLoop
      rw [hstepfl, hyl]
      simp [sizesLoop]
    have hrest : scaleLoop decode dctx (k * W) (k * W) 1 1 0 [W] f (1 + 1)
        = some ([], [], none, false) := by
      cases f with
      | zero => omega
      | succ f2 =>
        unfold scaleLoop
        rw [if_neg (by norm_num : ¬((1 : ℚ) + 1 ≤ 1))]
    unfold scaleLoop
    rw [if_pos (by norm_num : (1 : ℚ) ≤ 1), hflr, if_neg hpos, hdec (.wholeFrame 1),
      hsz, hrest]
    simp

/-- Evaluation of the whole scanner for the exhaustive-coverage
configuration on a `(k*W) x (k*W)` image with an always-failing oracle. -/
lemma scan_notFound_tiling (decode : Probe → DecodeOutcome) (W k : ℕ) (dbg ca : Bool)
    (fuel : ℕ) (hW : 0 < W) (hk : 0 < k) (hdec : ∀ p, decode p = .notFound)
    (hfuel : 2 * k + 2 ≤ fuel) :
    scanWithSlidingWindow decode (k * W) (k * W) ⟨true, dbg, 1, 1, 1, 0, [W]⟩ ca fuel
      = some (.done ⟨none, .native :: .wholeFrame 1 :: gridProbes 1 W (W : ℤ) k 0 k,
          [1], dbg && ca⟩) := by
  unfold scanWithSlidingWindow
  rw [hdec .native]
  rw [scaleLoop_tiling decode (dbg && ca) W k fuel hW hk hdec hfuel]
  rfl

/-- Membership in the window grid. -/
lemma mem_gridProbes (sc : ℚ) (wsize : ℕ) (step : ℤ) (nx : ℕ) :
    ∀ (m : ℕ) (y : ℤ) (q : Probe), (q ∈ gridProbes sc wsize step nx y m ↔
      ∃ i j : ℕ, i < nx ∧ j < m ∧ q = .window sc wsize ((i : ℤ) * step) (y + (j : ℤ) * step)) := by
  intro m
  induction m with
  | zero => intro y q; simp [gridProbes]
  | succ m ih =>
    intro y q
    simp only [gridProbes, List.mem_append, rowProbes, List.mem_map, List.mem_range,
      ih (y + step)]
    constructor
    · rintro (⟨i, hi, rfl⟩ | ⟨i, j, hi, hj, rfl⟩)
      · exact ⟨i, 0, hi, Nat.succ_pos m, by simp⟩
      · refine ⟨i, j + 1, hi, by omega, ?_⟩
        simp only [Probe.window.injEq, true_and]
        push_cast
        ring_nf
    · rintro ⟨i, j, hi, hj, rfl⟩
      cases j with
      | zero => exact Or.inl ⟨i, hi, by simp⟩
      | succ j =>
        refine Or.inr ⟨i, j, hi, by omega, ?_⟩
        simp only [Probe.window.injEq, true_and]
        push_cast
        ring_nf

/-- The window grid has exactly `m * nx` probes. -/
lemma length_gridProbes (sc : ℚ) (wsize : ℕ) (step : ℤ) (nx : ℕ) :
    ∀ (m : ℕ) (y : ℤ), (gridProbes sc wsize step nx y m).length = m * nx := by
  intro m
  induction m with
  | zero => intro y; simp [gridProbes]
  | succ m ih =>
    intro y
    simp only [gridProbes, List.length_append, rowProbes, List.length_map,
      List.length_range, ih (y + step)]
    ring

/-- For a positive step, the window grid has no duplicate probes. -/
lemma nodup_gridProbes (sc : ℚ) (wsize : ℕ) (step : ℤ) (nx : ℕ) (hstep : 0 < step) :
    ∀ (m : ℕ) (y : ℤ), (gridProbes sc wsize step nx y m).Nodup := by
  intro m
  induction m with
  | zero => intro y; simp [gridProbes]
  | succ m ih =>
    intro y
    simp only [gridProbes]
    apply List.Nodup.append
    · apply List.Nodup.map
      · intro a b hab
        simp only [Probe.window.injEq, true_and] at hab
        obtain ⟨hx, -⟩ := hab
        have hz : (a : ℤ) = (b : ℤ) := mul_right_cancel₀ (ne_of_gt hstep) hx
        exact_mod_cast hz
      · exact List.nodup_range nx
    · exact ih (y + step)
    · intro q hq hq2
      simp only [rowProbes, List.mem_map, List.mem_range] at hq
      obtain ⟨i, -, rfl⟩ := hq
      rw [mem_gridProbes] at hq2
      obtain ⟨i2, j2, -, -, heq⟩ := hq2
      simp only [Probe.window.injEq, true_and] at heq
      obtain ⟨-, hy⟩ := heq
      have hj2 : (0 : ℤ) ≤ (j2 : ℤ) * step := by positivity
      linarith [hy]

/-- Two tiles of the exact tiling that share a point are equal. -/
lemma tile_disjoint (W : ℕ) (hW : 0 < W) (i j i2 j2 : ℕ) (px py : ℤ)
    (h1 : coversPt (.window 1 W ((i : ℤ) * W) ((j : ℤ) * W)) px py)
    (h2 : coversPt (.window 1 W ((i2 : ℤ) * W) ((j2 : ℤ) * W)) px py) :
    i = i2 ∧ j = j2 := by
  simp only [coversPt] at h1 h2
  obtain ⟨a1, a2, a3, a4⟩ := h1
  obtain ⟨b1, b2, b3, b4⟩ := h2
  have hWz : (0 : ℤ) < (W : ℤ) := by exact_mod_cast hW
  constructor
  · by_contra hne
    rcases Nat.lt_or_ge i i2 with hlt | hge
    · have hzi : (i : ℤ) + 1 ≤ (i2 : ℤ) := by exact_mod_cast hlt
      nlinarith
    · have hgt : i2 < i := by omega
      have hzi : (i2 : ℤ) + 1 ≤ (i : ℤ) := by exact_mod_cast hgt
      nlinarith
  · by_contra hne
    rcases Nat.lt_or_ge j j2 with hlt | hge
    · have hzj : (j : ℤ) + 1 ≤ (j2 : ℤ) := by exact_mod_cast hlt
      nlinarith
    · have hgt : j2 < j := by omega
      have hzj : (j2 : ℤ) + 1 ≤ (j : ℤ) := by exact_mod_cast hgt
      nlinarith

/-- Every point of the image lies in some tile of the exact tiling. -/
lemma tile_cover (W k : ℕ) (hW : 0 < W) (px py : ℤ)
    (hpx0 : 0 ≤ px) (hpx : px < (k : ℤ) * W) (hpy0 : 0 ≤ py) (hpy : py < (k : ℤ) * W) :
    ∃ i j : ℕ, i < k ∧ j < k ∧
      coversPt (.window 1 W ((i : ℤ) * W) ((j : ℤ) * W)) px py := by
  have hWz : (0 : ℤ) < (W : ℤ) := by exact_mod_cast hW
  have hx0 : 0 ≤ px / (W : ℤ) := Int.ediv_nonneg hpx0 (le_of_lt hWz)
  have hy0 : 0 ≤ py / (W : ℤ) := Int.ediv_nonneg hpy0 (le_of_lt hWz)
  have hxk : px / (W : ℤ) < (k : ℤ) := by
    rw [Int.ediv_lt_iff_lt_mul hWz]
    exact hpx
  have hyk : py / (W : ℤ) < (k : ℤ) := by
    rw [Int.ediv_lt_iff_lt_mul hWz]
    exact hpy
  have hxmod0 : 0 ≤ px % (W : ℤ) := Int.emod_nonneg px (ne_of_gt hWz)
  have hxmodW : px % (W : ℤ) < (W : ℤ) := Int.emod_lt_of_pos px hWz
  have hymod0 : 0 ≤ py % (W : ℤ) := Int.emod_nonneg py (ne_of_gt hWz)
  have hymodW : py % (W : ℤ) < (W : ℤ) := Int.emod_lt_of_pos py hWz
  have hxdiv : (W : ℤ) * (px / (W : ℤ)) + px % (W : ℤ) = px := Int.ediv_add_emod px W
  have hydiv : (W : ℤ) * (py / (W : ℤ)) + py % (W : ℤ) = py := Int.ediv_add_emod py W
  refine ⟨(px / (W : ℤ)).toNat, (py / (W : ℤ)).toNat, by omega, by omega, ?_⟩
  simp only [coversPt]
  rw [Int.toNat_of_nonneg hx0, Int.toNat_of_nonneg hy0]
  constructor
  · linarith [hxdiv, hxmod0]
  constructor
  · nlinarith [hxdiv, hxmodW]
  constructor
  · linarith [hydiv, hymod0]
  · nlinarith [hydiv, hymodW]

/-- C3.  For the configuration `minScale = maxScale = scaleStep = 1`,
`windowSizes = [W]`, `windowOverlap = 0` on a square image of side `k*W`
(`H = k*W` an exact positive multiple of `W`), when the decode primitive
fails on every probe the scan terminates with not-found after invoking the
decode primitive on exactly `(H/W)² = k²` distinct `W x W` windows — the
row-major grid with corners `(i*W, j*W)` — which are pairwise
non-overlapping and tile the image. -/
theorem exhaustive_tiling (decode : Probe → DecodeOutcome) (W k : ℕ) (dbg ca : Bool)
    (fuel : ℕ) (hW : 0 < W) (hk : 0 < k) (hdec : ∀ p, decode p = .notFound)
    (hfuel : 2 * k + 2 ≤ fuel) :
    ∃ o, scanWithSlidingWindow decode (k * W) (k * W) ⟨true, dbg, 1, 1, 1, 0, [W]⟩ ca fuel
        = some (.done o)
      ∧ o.result = none
      ∧ windowProbes o = gridProbes 1 W (W : ℤ) k 0 k
      ∧ (windowProbes o).length = k * k
      ∧ (windowProbes o).Nodup
      ∧ (∀ q, q ∈ windowProbes o ↔ ∃ i j : ℕ, i < k ∧ j < k ∧
          q = .window 1 W ((i : ℤ) * W) ((j : ℤ) * W))
      ∧ (∀ p₁ ∈ windowProbes o, ∀ p₂ ∈ windowProbes o, ∀ px py : ℤ,
          coversPt p₁ px py → coversPt p₂ px py → p₁ = p₂)
      ∧ (∀ px py : ℤ, 0 ≤ px → px < (k : ℤ) * W → 0 ≤ py → py < (k : ℤ) * W →
          ∃ q ∈ windowProbes o, coversPt q px py) := by
  have hWz : (0 : ℤ) < (W : ℤ) := by exact_mod_cast hW
  have hall : ∀ q ∈ gridProbes 1 W (W : ℤ) k 0 k, Probe.isWindow q = true := by
    intro q hq
    rw [mem_gridProbes] at hq
    obtain ⟨i, j, -, -, rfl⟩ := hq
    rfl
  have hfilter : windowProbes ⟨none,
      .native :: .wholeFrame 1 :: gridProbes 1 W (W : ℤ) k 0 k, [1], dbg && ca⟩
      = gridProbes 1 W (W : ℤ) k 0 k := by
    simp only [windowProbes]
    rw [List.filter_cons_of_neg (by simp [Probe.isWindow]),
      List.filter_cons_of_neg (by simp [Probe.isWindow])]
    exact List.filter_eq_self.mpr hall
  refine ⟨⟨none, .native :: .wholeFrame 1 :: gridProbes 1 W (W : ℤ) k 0 k, [1], dbg && ca⟩,
    scan_notFound_tiling decode W k dbg ca fuel hW hk hdec hfuel, rfl, hfilter,
    ?_, ?_, ?_, ?_, ?_⟩
  · rw [hfilter, length_gridProbes]
  · rw [hfilter]
    exact nodup_gridProbes 1 W (W : ℤ) k hWz k 0
  · intro q
    rw [hfilter, mem_gridProbes]
    constructor
    · rintro ⟨i, j, hi, hj, rfl⟩
      exact ⟨i, j, hi, hj, by simp⟩
    · rintro ⟨i, j, hi, hj, rfl⟩
      exact ⟨i, j, hi, hj, by simp⟩
  · intro p₁ h₁ p₂ h₂ px py hc1 hc2
    rw [hfilter, mem_gridProbes] at h₁ h₂
    obtain ⟨i, j, -, -, rfl⟩ := h₁
    obtain ⟨i2, j2, -, -, rfl⟩ := h₂
    simp only [zero_add] at hc1 hc2 ⊢
    obtain ⟨hii, hjj⟩ := tile_disjoint W hW i j i2 j2 px py hc1 hc2
    subst hii; subst hjj
    rfl
  · intro px py hpx0 hpx hpy0 hpy
    obtain ⟨i, j, hik, hjk, hcov⟩ := tile_cover W k hW px py hpx0 hpx hpy0 hpy
    refine ⟨.window 1 W ((i : ℤ) * W) (0 + (j : ℤ) * W), ?_, ?_⟩
    · rw [hfilter, mem_gridProbes]
      exact ⟨i, j, hik, hjk, rfl⟩
    · simpa using hcov

/-- Witness for C3 at `W = 2`, `k = 2` (a 4x4 image tiled by four 2x2
windows) with the all-failing oracle. -/
theorem exhaustive_tiling_witness :
    ∃ o, scanWithSlidingWindow allFail (2 * 2) (2 * 2) ⟨true, false, 1, 1, 1, 0, [2]⟩ false 6
        = some (.done o)
      ∧ o.result = none
      ∧ windowProbes o = gridProbes 1 2 (2 : ℤ) 2 0 2
      ∧ (windowProbes o).length = 2 * 2
      ∧ (windowProbes o).Nodup
      ∧ (∀ q, q ∈ windowProbes o ↔ ∃ i j : ℕ, i < 2 ∧ j < 2 ∧
          q = .window 1 2 ((i : ℤ) * 2) ((j : ℤ) * 2))
      ∧ (∀ p₁ ∈ windowProbes o, ∀ p₂ ∈ windowProbes o, ∀ px py : ℤ,
          coversPt p₁ px py → coversPt p₂ px py → p₁ = p₂)
      ∧ (∀ px py : ℤ, 0 ≤ px → px < (2 : ℤ) * 2 → 0 ≤ py → py < (2 : ℤ) * 2 →
          ∃ q ∈ windowProbes o, coversPt q px py) :=
  exhaustive_tiling allFail 2 2 false false 6 (by decide) (by decide)
    (fun _ => rfl) (by decide)

/-- Witness for C2: an oracle succeeding on the two disjoint windows
`(x, y) = (2, 0)` (payload A) and `(x, y) = (0, 2)` (payload B) of the same
scale and window size; the scan reports A, the success top-most in
row-major order, and stops right after it. -/
theorem first_match_priority_witness :
    scanView (scanWithSlidingWindow cdTwoWins 4 4 ⟨true, false, 1, 1, 1, 0, [2]⟩ false 8)
      = some (some "A",
          [.native, .wholeFrame 1, .window 1 2 0 0, .window 1 2 2 0], false) :=
  first_match_priority cdTwoWins (2 * 2) (2 * 2) ⟨true, false, 1, 1, 1, 0, [2]⟩ false 8
    ⟨none, .native :: .wholeFrame 1 :: gridProbes 1 2 (2 : ℤ) 2 0 2, [1], false⟩
    [.native, .wholeFrame 1, .window 1 2 0 0, .window 1 2 2 0] (.window 1 2 2 0) "A"
    (scan_notFound_tiling allFail 2 2 false false 8 (by decide) (by decide)
      (fun _ => rfl) (by decide))
    (by decide) (by decide)

/-- Prepending keeps the last element of a nonempty list. -/
lemma getLast?_cons_of_some {α : Type} (a : α) (l : List α) (p : α)
    (h : l.getLast? = some p) : (a :: l).getLast? = some p := by
  cases l with
  | nil => simp at h
  | cons b t => rw [List.getLast?_cons_cons]; exact h

/-- Appending on the left keeps the last element of a nonempty list. -/
lemma getLast?_append_of_some {α : Type} (as bs : List α) (p : α)
    (h : bs.getLast? = some p) : (as ++ bs).getLast? = some p := by
  induction as with
  | nil => exact h
  | cons a t ih => rw [List.cons_append]; exact getLast?_cons_of_some a _ p ih

/-- A successful inner window loop ends its trace at the successful
window probe and emits exactly when the debug context exists. -/
lemma xLoop_found_emit (decode : Probe → DecodeOutcome) (dctx : Bool) (sc : ℚ)
    (wsize : ℕ) (scaledW y step : ℤ) :
    ∀ fuel x ps payload b,
      xLoop decode dctx sc wsize scaledW y step fuel x = some (ps, some payload, b) →
      ∃ p, ps.getLast? = some p ∧ p.isWindow = true ∧ b = dctx := by
  intro fuel
  induction fuel with
  | zero => intro x ps payload b h; simp [xLoop] at h
  | succ f ih =>
    intro x ps payload b h
    unfold xLoop at h
    by_cases hx : x ≤ scaledW - wsize
    · rw [if_pos hx] at h
      cases hdec : decode (.window sc wsize x y) with
      | found pay =>
        rw [hdec] at h
        simp only [Option.some.injEq, Prod.mk.injEq] at h
        obtain ⟨hps, -, hb⟩ := h
        subst hps
        exact ⟨.window sc wsize x y, rfl, rfl, hb.symm⟩
      | notFound =>
        rw [hdec] at h
        cases hrec : xLoop decode dctx sc wsize scaledW y step f (x + step) with
        | none => rw [hrec] at h; simp at h
        | some t =>
          obtain ⟨ps₂, r₂, b₂⟩ := t
          rw [hrec] at h
          simp only [Option.some.injEq, Prod.mk.injEq] at h
          obtain ⟨hps, hr, hb⟩ := h
          subst hps; subst hr; subst hb
          obtain ⟨p, hlast, hwin, hbd⟩ := ih (x + step) ps₂ payload b₂ hrec
          exact ⟨p, getLast?_cons_of_some _ _ _ hlast, hwin, hbd⟩
      | error =>
        rw [hdec] at h
        cases hrec : xLoop decode dctx sc wsize scaledW y step f (x + step) with
        | none => rw [hrec] at h; simp at h
        | some t =>
          obtain ⟨ps₂, r₂, b₂⟩ := t
          rw [hrec] at h
          simp only [Option.some.injEq, Prod.mk.injEq] at h
          obtain ⟨hps, hr, hb⟩ := h
          subst hps; subst hr; subst hb
          obtain ⟨p, hlast, hwin, hbd⟩ := ih (x + step) ps₂ payload b₂ hrec
          exact ⟨p, getLast?_cons_of_some _ _ _ hlast, hwin, hbd⟩
    · rw [if_neg hx] at h
      simp at h

/-- A successful row loop ends its trace at the successful window probe
and emits exactly when the debug context exists. -/
lemma yLoop_found_emit (decode : Probe → DecodeOutcome) (dctx : Bool) (sc : ℚ)
    (wsize : ℕ) (scaledW scaledH step : ℤ) :
    ∀ fuel y ps payload b,
      yLoop decode dctx sc wsize scaledW scaledH step fuel y = some (ps, some payload, b) →
      ∃ p, ps.getLast? = some p ∧ p.isWindow = true ∧ b = dctx := by
  intro fuel
  induction fuel with
  | zero => intro y ps payload b h; simp [yLoop] at h
  | succ f ih =>
    intro y ps payload b h
    unfold yLoop at h
    by_cases hy : y ≤ scaledH - wsize
    · rw [if_pos hy] at h
      cases hxa : xLoop decode dctx sc wsize scaledW y step (f + 1) 0 with
      | none => rw [hxa] at h; simp at h
      | some t =>
        obtain ⟨ps₂, r₂, b₂⟩ := t
        rw [hxa] at h
        cases r₂ with
        | some pay =>
          simp only [Option.some.injEq, Prod.mk.injEq] at h
          obtain ⟨hps, hr, hb⟩ := h
          subst hps; subst hb
          obtain ⟨p, hlast, hwin, hbd⟩ := xLoop_found_emit decode dctx sc wsize scaledW y step
            (f + 1) 0 ps₂ pay b₂ hxa
          exact ⟨p, hlast, hwin, hbd⟩
        | none =>
          cases hrec : yLoop decode dctx sc wsize scaledW scaledH step f (y + step) with
          | none => rw [hrec] at h; simp at h
          | some u =>
            obtain ⟨qs, r₃, b₃⟩ := u
            rw [hrec] at h
            simp only [Option.some.injEq, Prod.mk.injEq] at h
            obtain ⟨hps, hr, hb⟩ := h
            subst hps; subst hr; subst hb
            obtain ⟨p, hlast, hwin, hbd⟩ := ih (y + step) qs payload b₃ hrec
            exact ⟨p, getLast?_append_of_some _ _ _ hlast, hwin, hbd⟩
    · rw [if_neg hy] at h
      simp at h

/-- A successful window-sizes loop ends its trace at the successful
window probe and emits exactly when the debug context exists. -/
lemma sizesLoop_found_emit (decode : Probe → DecodeOutcome) (dctx : Bool) (sc : ℚ)
    (scaledW scaledH : ℤ) (overlap : ℚ) (fuel : ℕ) :
    ∀ sizes ps payload b,
      sizesLoop decode dctx sc scaledW scaledH overlap fuel sizes = some (ps, some payload, b) →
      ∃ p, ps.getLast? = some p ∧ p.isWindow = true ∧ b = dctx := by
  intro sizes
  induction sizes with
  | nil => intro ps payload b h; simp [sizesLoop] at h
  | cons wsize rest ih =>
    intro ps payload b h
    unfold sizesLoop at h
    cases hya : yLoop decode dctx sc wsize scaledW scaledH
        ⌊(wsize : ℚ) * (1 - overlap)⌋ fuel 0 with
    | none => rw [hya] at h; simp at h
    | some t =>
      obtain ⟨ps₂, r₂, b₂⟩ := t
      rw [hya] at h
      cases r₂ with
      | some pay =>
        simp only [Option.some.injEq, Prod.mk.injEq] at h
        obtain ⟨hps, hr, hb⟩ := h
        subst hps; subst hb
        obtain ⟨p, hlast, hwin, hbd⟩ := yLoop_found_emit decode dctx sc wsize scaledW scaledH
          ⌊(wsize : ℚ) * (1 - overlap)⌋ fuel 0 ps₂ pay b₂ hya
        exact ⟨p, hlast, hwin, hbd⟩
      | none =>
        cases hrest : sizesLoop decode dctx sc scaledW scaledH overlap fuel rest with
        | none => rw [hrest] at h; simp at h
        | some u =>
          obtain ⟨qs, r₃, b₃⟩ := u
          rw [hrest] at h
          simp only [Option.some.injEq, Prod.mk.injEq] at h
          obtain ⟨hps, hr, hb⟩ := h
          subst hps; subst hr; subst hb
          obtain ⟨p, hlast, hwin, hbd⟩ := ih qs payload b₃ hrest
          exact ⟨p, getLast?_append_of_some _ _ _ hlast, hwin, hbd⟩

/-- A successful scale loop ends its trace at the successful probe, and
its emission flag is exactly "the successful probe is a window probe and
the debug context exists". -/
lemma scaleLoop_found_emit (decode : Probe → DecodeOutcome) (dctx : Bool)
    (width height : ℕ) (maxS stepS overlap : ℚ) (sizes : List ℕ) :
    ∀ fuel sc ps rs payload b,
      scaleLoop decode dctx width height maxS stepS overlap sizes fuel sc
        = some (ps, rs, some payload, b) →
      ∃ p, ps.getLast? = some p ∧ b = (p.isWindow && dctx) := by
  intro fuel
  induction fuel with
  | zero => intro sc ps rs payload b h; simp [scaleLoop] at h
  | succ f ih =>
    intro sc ps rs payload b h
    unfold scaleLoop at h
    by_cases hsc : sc ≤ maxS
    · rw [if_pos hsc] at h
      by_cases hdim : ⌊(width : ℚ) * sc⌋ ≤ 0 ∨ ⌊(height : ℚ) * sc⌋ ≤ 0
      · rw [if_pos hdim] at h
        exact ih (sc + stepS) ps rs payload b h
      · rw [if_neg hdim] at h
        cases hdec : decode (.wholeFrame sc) with
        | found pay =>
          rw [hdec] at h
          simp only [Option.some.injEq, Prod.mk.injEq] at h
          obtain ⟨hps, -, -, hb⟩ := h
          subst hps
          exact ⟨.wholeFrame sc, rfl, by rw [← hb]; rfl⟩
        | notFound =>
          rw [hdec] at h
          cases hsz : sizesLoop decode dctx sc ⌊(width : ℚ) * sc⌋ ⌊(height : ℚ) * sc⌋
              overlap (f + 1) sizes with
          | none => rw [hsz] at h; simp at h
          | some t =>
            obtain ⟨ps₂, r₂, b₂⟩ := t
            rw [hsz] at h
            cases r₂ with
            | some pay =>
              simp only [Option.some.injEq, Prod.mk.injEq] at h
              obtain ⟨hps, -, -, hb⟩ := h
              subst hps; subst hb
              obtain ⟨p, hlast, hwin, hbd⟩ := sizesLoop_found_emit decode dctx sc
                ⌊(width : ℚ) * sc⌋ ⌊(height : ℚ) * sc⌋ overlap (f + 1) sizes ps₂ pay b₂ hsz
              refine ⟨p, getLast?_cons_of_some _ _ _ hlast, ?_⟩
              rw [hwin, hbd, Bool.true_and]
            | none =>
              cases hrec : scaleLoop decode dctx width height maxS stepS overlap sizes
                  f (sc + stepS) with
              | none => rw [hrec] at h; simp at h
              | some u =>
                obtain ⟨qs, rs₃, r₃, b₃⟩ := u
                rw [hrec] at h
                simp only [Option.some.injEq, Prod.mk.injEq] at h
                obtain ⟨hps, -, hr, hb⟩ := h
                subst hps; subst hr; subst hb
                obtain ⟨p, hlast, hbd⟩ := ih (sc + stepS) qs rs₃ payload b₃ hrec
                refine ⟨p, ?_, hbd⟩
                exact getLast?_cons_of_some _ _ _ (getLast?_append_of_some _ _ _ hlast)
        | error =>
          rw [hdec] at h
          cases hsz : sizesLoop decode dctx sc ⌊(width : ℚ) * sc⌋ ⌊(height : ℚ) * sc⌋
              overlap (f + 1) sizes with
          | none => rw [hsz] at h; simp at h
          | some t =>
            obtain ⟨ps₂, r₂, b₂⟩ := t
            rw [hsz] at h
            cases r₂ with
            | some pay =>
              simp only [Option.some.injEq, Prod.mk.injEq] at h
              obtain ⟨hps, -, -, hb⟩ := h
              subst hps; subst hb
              obtain ⟨p, hlast, hwin, hbd⟩ := sizesLoop_found_emit decode dctx sc
                ⌊(width : ℚ) * sc⌋ ⌊(height : ℚ) * sc⌋ overlap (f + 1) sizes ps₂ pay b₂ hsz
              refine ⟨p, getLast?_cons_of_some _ _ _ hlast, ?_⟩
              rw [hwin, hbd, Bool.true_and]
            | none =>
              cases hrec : scaleLoop decode dctx width height maxS stepS overlap sizes
                  f (sc + stepS) with
              | none => rw [hrec] at h; simp at h
              | some u =>
                obtain ⟨qs, rs₃, r₃, b₃⟩ := u
                rw [hrec] at h
                simp only [Option.some.injEq, Prod.mk.injEq] at h
                obtain ⟨hps, -, hr, hb⟩ := h
                subst hps; subst hr; subst hb
                obtain ⟨p, hlast, hbd⟩ := ih (sc + stepS) qs rs₃ payload b₃ hrec
                refine ⟨p, ?_, hbd⟩
                exact getLast?_cons_of_some _ _ _ (getLast?_append_of_some _ _ _ hlast)
    · rw [if_neg hsc] at h
      simp at h

/-- C4 (amended).  Diagnostic-image emission is fully characterised: on a
not-found outcome the image is emitted exactly when advanced scanning ran
with debugMode set and the canvas available; on a found outcome it is
emitted exactly when the winning probe (the last probe of the trace) is a
window probe, debugMode is set and the canvas is available — in
particular a native or whole-resampled-frame success never emits a
diagnostic image, and debugMode = false never emits one. -/
theorem debug_image_presence (decode : Probe → DecodeOutcome) (width height : ℕ)
    (s : ScannerSettings) (ca : Bool) (fuel : ℕ) (o : ScanOutcome)
    (hdone : scanWithSlidingWindow decode width height s ca fuel = some (.done o)) :
    (o.result = none →
      o.debugEmitted = (s.useAdvancedScanning && (s.debugMode && ca)))
    ∧ (∀ payload, o.result = some payload →
      ∃ p, o.probes.getLast? = some p
        ∧ o.debugEmitted = (p.isWindow && (s.debugMode && ca))) := by
  unfold scanWithSlidingWindow at hdone
  cases hdec : decode .native with
  | error => rw [hdec] at hdone; simp at hdone
  | found pay =>
    rw [hdec] at hdone
    simp only [Option.some.injEq, ScanFinal.done.injEq] at hdone
    subst hdone
    constructor
    · intro hres; simp at hres
    · intro payload hres
      exact ⟨.native, rfl, rfl⟩
  | notFound =>
    rw [hdec] at hdone
    cases hadv : s.useAdvancedScanning with
    | false =>
      rw [hadv] at hdone
      simp only [Bool.not_false, if_true, Option.some.injEq, ScanFinal.done.injEq] at hdone
      subst hdone
      constructor
      · intro _; rfl
      · intro payload hres; simp at hres
    | true =>
      rw [hadv] at hdone
      simp only [Bool.not_true, Bool.false_eq_true, if_false] at hdone
      cases hsl : scaleLoop decode (s.debugMode && ca) width height s.maxScale s.scaleStep
          s.windowOverlap s.windowSizes fuel s.minScale with
      | none => rw [hsl] at hdone; simp at hdone
      | some t =>
        obtain ⟨ps, rs, r, b⟩ := t
        rw [hsl] at hdone
        cases r with
        | some pay =>
          simp only [Option.some.injEq, ScanFinal.done.injEq] at hdone
          subst hdone
          constructor
          · intro hres; simp at hres
          · intro payload hres
            obtain ⟨p, hlast, hb⟩ := scaleLoop_found_emit decode (s.debugMode && ca)
              width height s.maxScale s.scaleStep s.windowOverlap s.windowSizes
              fuel s.minScale ps rs pay b hsl
            exact ⟨p, getLast?_cons_of_some _ _ _ hlast, hb⟩
        | none =>
          simp only [Option.some.injEq, ScanFinal.done.injEq] at hdone
          subst hdone
          constructor
          · intro _
            rw [Bool.true_and]
          · intro payload hres; simp at hres

/-- Counterexample to C4 as stated: with debugMode set and the canvas
available, a scan that proceeds past the native pass and then succeeds on
the whole resampled frame returns Found yet emits no diagnostic image
(the emission flag of the outcome is false). -/
theorem whole_frame_success_no_debug_image :
    scanWithSlidingWindow cdFrame 4 4 ⟨true, true, 1, 1, 1, 0, [2]⟩ true 5
      = some (.done ⟨some "x", [.native, .wholeFrame 1], [1], false⟩) := by
  have hflr : ⌊((4 : ℕ) : ℚ) * 1⌋ = (4 : ℤ) := by norm_num
  have hscale : scaleLoop cdFrame (true && true) 4 4 1 1 0 [2] 5 1
      = some ([.wholeFrame 1], [1], some "x", false) := by
    rw [show (5 : ℕ) = 4 + 1 from rfl]
    unfold scaleLoop
    rw [if_pos (by norm_num : (1 : ℚ) ≤ 1), hflr]
    rw [if_neg (by norm_num : ¬((4 : ℤ) ≤ 0 ∨ (4 : ℤ) ≤ 0))]
    rfl
  unfold scanWithSlidingWindow
  rw [show cdFrame .native = .notFound from rfl, hscale]
  rfl

/-- Witness for C4 on a concrete not-found run with debugMode set: the
diagnostic image is emitted. -/
theorem debug_image_presence_witness :
    ((⟨none, .native :: .wholeFrame 1 :: gridProbes 1 2 (2 : ℤ) 2 0 2, [1],
        true⟩ : ScanOutcome).result = none →
      (⟨none, .native :: .wholeFrame 1 :: gridProbes 1 2 (2 : ℤ) 2 0 2, [1],
        true⟩ : ScanOutcome).debugEmitted = (true && (true && true)))
    ∧ (∀ payload, (⟨none, .native :: .wholeFrame 1 :: gridProbes 1 2 (2 : ℤ) 2 0 2, [1],
        true⟩ : ScanOutcome).result = some payload →
      ∃ p, (⟨none, .native :: .wholeFrame 1 :: gridProbes 1 2 (2 : ℤ) 2 0 2, [1],
          true⟩ : ScanOutcome).probes.getLast? = some p
        ∧ (⟨none, .native :: .wholeFrame 1 :: gridProbes 1 2 (2 : ℤ) 2 0 2, [1],
          true⟩ : ScanOutcome).debugEmitted = (p.isWindow && (true && true))) :=
  debug_image_presence allFail (2 * 2) (2 * 2) ⟨true, true, 1, 1, 1, 0, [2]⟩ true 6
    ⟨none, .native :: .wholeFrame 1 :: gridProbes 1 2 (2 : ℤ) 2 0 2, [1], true⟩
    (scan_notFound_tiling allFail 2 2 true true 6 (by decide) (by decide)
      (fun _ => rfl) (by decide))

/-- One iteration of the scale loop with a positive step decreases the
remaining iteration count by exactly one. -/
lemma scaleIters_decrement (sc maxS stepS : ℚ) (hsc : sc ≤ maxS) (hstep : 0 < stepS) :
    scaleIters sc maxS stepS = scaleIters (sc + stepS) maxS stepS + 1 := by
  have hne : stepS ≠ 0 := ne_of_gt hstep
  unfold scaleIters
  rw [if_pos hsc]
  by_cases h2 : sc + stepS ≤ maxS
  · rw [if_pos h2]
    have hdiv : (maxS - (sc + stepS)) / stepS = (maxS - sc) / stepS - 1 := by
      rw [show maxS - (sc + stepS) = (maxS - sc) - stepS by ring, sub_div, div_self hne]
    have hfl : ⌊(maxS - (sc + stepS)) / stepS⌋ = ⌊(maxS - sc) / stepS⌋ - 1 := by
      rw [hdiv, Int.floor_sub_one]
    have hge : 1 ≤ ⌊(maxS - sc) / stepS⌋ := by
      apply Int.le_floor.mpr
      push_cast
      rw [le_div_iff₀ hstep]
      linarith
    rw [hfl]
    omega
  · rw [if_neg h2]
    have h0 : ⌊(maxS - sc) / stepS⌋ = 0 := by
      rw [Int.floor_eq_zero_iff]
      constructor
      · apply div_nonneg
        · linarith
        · linarith
      · rw [div_lt_one hstep]
        linarith
    rw [h0]
    rfl

/-- With empty `windowSizes` and a positive `scaleStep`, the scale loop
terminates given enough fuel, performs only whole-frame probes, and
finds nothing when no whole-frame probe decodes. -/
lemma scaleLoop_empty_total (decode : Probe → DecodeOutcome) (dctx : Bool)
    (width height : ℕ) (maxS stepS overlap : ℚ) (hstep : 0 < stepS)
    (hnf : ∀ sc payload, decode (.wholeFrame sc) ≠ .found payload) :
    ∀ fuel sc, scaleIters sc maxS stepS < fuel →
      ∃ ps rs, scaleLoop decode dctx width height maxS stepS overlap [] fuel sc
          = some (ps, rs, none, false)
        ∧ ∀ p ∈ ps, p.isWindow = false := by
  intro fuel
  induction fuel with
  | zero => intro sc h; omega
  | succ f ih =>
    intro sc hlt
    by_cases hsc : sc ≤ maxS
    · have hdecr := scaleIters_decrement sc maxS stepS hsc hstep
      obtain ⟨ps, rs, hrw, hwin⟩ := ih (sc + stepS) (by omega)
      by_cases hdim : ⌊(width : ℚ) * sc⌋ ≤ 0 ∨ ⌊(height : ℚ) * sc⌋ ≤ 0
      · refine ⟨ps, rs, ?_, hwin⟩
        unfold scaleLoop
        rw [if_pos hsc, if_pos hdim, hrw]
      · cases hdec : decode (.wholeFrame sc) with
        | found pay => exact absurd hdec (hnf sc pay)
        | notFound =>
          refine ⟨.wholeFrame sc :: ps, sc :: rs, ?_, ?_⟩
          · unfold scaleLoop
            rw [if_pos hsc, if_neg hdim, hdec, hrw]
            rfl
          · intro p hp
            cases List.mem_cons.mp hp with
            | inl hp => subst hp; rfl
            | inr hp => exact hwin p hp
        | error =>
          refine ⟨.wholeFrame sc :: ps, sc :: rs, ?_, ?_⟩
          · unfold scaleLoop
            rw [if_pos hsc, if_neg hdim, hdec, hrw]
            rfl
          · intro p hp
            cases List.mem_cons.mp hp with
            | inl hp => subst hp; rfl
            | inr hp => exact hwin p hp
    · refine ⟨[], [], ?_, by intro p hp; simp at hp⟩
      unfold scaleLoop
      rw [if_neg hsc]

/-- C6 (amended).  With `minScale > maxScale` and a failing native decode
the scale loop performs zero iterations and the scan returns not-found
with no probe beyond the native pass and no resampling.  With empty
`windowSizes`, positive `scaleStep`, a failing native decode and no
whole-resampled-frame probe succeeding, the window loops perform zero
iterations and the scan terminates with not-found and zero window probes
(whole-frame probes still occur, so the result is determined by the
native and whole-frame attempts; the non-positive `scaleStep` case is
excluded, since then the source's scale loop does not advance). -/
theorem invalid_config_degenerates (decode : Probe → DecodeOutcome) (width height : ℕ)
    (s : ScannerSettings) (ca : Bool) (fuel : ℕ) :
    (s.maxScale < s.minScale → decode .native = .notFound → 0 < fuel →
      scanTrace (scanWithSlidingWindow decode width height s ca fuel)
        = some (none, [.native], []))
    ∧ (s.windowSizes = [] → 0 < s.scaleStep → decode .native = .notFound →
      (∀ sc payload, decode (.wholeFrame sc) ≠ .found payload) →
      scaleIters s.minScale s.maxScale s.scaleStep < fuel →
      scanResult (scanWithSlidingWindow decode width height s ca fuel) = some none
        ∧ hasWindowProbe (scanWithSlidingWindow decode width height s ca fuel)
          = some false) := by
  constructor
  · intro hlt hnat hfuel
    unfold scanWithSlidingWindow
    rw [hnat]
    cases hadv : s.useAdvancedScanning with
    | false => rfl
    | true =>
      cases fuel with
      | zero => omega
      | succ f =>
        have hz : scaleLoop decode (s.debugMode && ca) width height s.maxScale s.scaleStep
            s.windowOverlap s.windowSizes (f + 1) s.minScale
            = some ([], [], none, false) := by
          unfold scaleLoop
          rw [if_neg (not_le.mpr hlt)]
        rw [hz]
        rfl
  · intro hempty hstep hnat hnf hfuel
    unfold scanWithSlidingWindow
    rw [hnat, hempty]
    cases hadv : s.useAdvancedScanning with
    | false => exact ⟨rfl, rfl⟩
    | true =>
      obtain ⟨ps, rs, hrw, hwin⟩ := scaleLoop_empty_total decode (s.debugMode && ca)
        width height s.maxScale s.scaleStep s.windowOverlap hstep hnf fuel s.minScale hfuel
      rw [hrw]
      refine ⟨rfl, ?_⟩
      have hnone : ps.any Probe.isWindow = false := by
        rw [List.any_eq_false]
        intro p hp
        simp [hwin p hp]
      show some ((Probe.native :: ps).any Probe.isWindow) = some false
      simp [List.any_cons, Probe.isWindow, hnone]

/-- Counterexample to C6 as stated: with empty `windowSizes` (an invalid
configuration) and a native decode that fails, the scan does not return
not-found whenever a whole-resampled-frame probe succeeds — the result is
Found with the frame's payload. -/
theorem empty_window_sizes_returns_found :
    scanWithSlidingWindow cdFrame 4 4 ⟨true, false, 1, 1, 1, 0, []⟩ true 5
      = some (.done ⟨some "x", [.native, .wholeFrame 1], [1], false⟩) := by
  have hflr : ⌊((4 : ℕ) : ℚ) * 1⌋ = (4 : ℤ) := by norm_num
  have hscale : scaleLoop cdFrame (false && true) 4 4 1 1 0 [] 5 1
      = some ([.wholeFrame 1], [1], some "x", false) := by
    rw [show (5 : ℕ) = 4 + 1 from rfl]
    unfold scaleLoop
    rw [if_pos (by norm_num : (1 : ℚ) ≤ 1), hflr]
    rw [if_neg (by norm_num : ¬((4 : ℤ) ≤ 0 ∨ (4 : ℤ) ≤ 0))]
    rfl
  unfold scanWithSlidingWindow
  rw [show cdFrame .native = .notFound from rfl, hscale]
  rfl

/-- Witness for C6 at two concrete degenerate configurations: an inverted
scale range, and an empty window-size list. -/
theorem invalid_config_degenerates_witness :
    scanTrace (scanWithSlidingWindow allFail 4 4 ⟨true, false, 2, 1, 1, 0, [2]⟩ false 3)
        = some (none, [.native], [])
      ∧ scanResult (scanWithSlidingWindow allFail 4 4 ⟨true, false, 1, 1, 1, 0, []⟩ false 9)
        = some none
      ∧ hasWindowProbe (scanWithSlidingWindow allFail 4 4 ⟨true, false, 1, 1, 1, 0, []⟩ false 9)
        = some false := by
  have hiters : scaleIters 1 1 1 < 9 := by
    unfold scaleIters
    rw [if_pos (by norm_num : (1 : ℚ) ≤ 1)]
    norm_num
  have h2 := (invalid_config_degenerates allFail 4 4 ⟨true, false, 1, 1, 1, 0, []⟩ false 9).2
    rfl (by norm_num) rfl (fun sc payload h => by simp [allFail] at h) hiters
  exact ⟨(invalid_config_degenerates allFail 4 4 ⟨true, false, 2, 1, 1, 0, [2]⟩ false 3).1
    (by norm_num) rfl (by norm_num), h2.1, h2.2⟩

end QrScanner
